import Mathlib

/-!
Verification of the BetterWriter document-tree core.

The TypeScript sources keep the whole application state in a single record
(`AppState` in `types.ts`) whose `fileMap` field is a plain JS object mapping
node ids to nodes.  We embed JS objects as association lists with overwrite
insertion, JS `===` as decidable equality on `String`, and the mutation
handlers of `App.tsx` (and the drag-and-drop variant of the app component)
as state-transforming functions.  Handlers whose JS body can throw a
`TypeError` (reading a property of `undefined`) return `Option`/`Except`,
with `none`/`.error` marking the throw.
-/

set_option maxHeartbeats 1000000

/-- Embeds `NodeType` from `types.ts`. -/
inductive NodeType where
  | FOLDER
  | FILE
deriving DecidableEq

/-- Embeds `FileCategory` from `types.ts`. -/
inductive FileCategory where
  | IDEA
  | PLANNING
  | CHARACTER
  | CHAPTER
  | OTHER
deriving DecidableEq

/-- Embeds `ViewMode` from `types.ts`. -/
inductive ViewMode where
  | LANDING
  | EDITOR
  | STATS
deriving DecidableEq

/-- Embeds the `status` union of `Book` in `types.ts`. -/
inductive BookStatus where
  | Drafting
  | Editing
  | Completed
  | Planning
deriving DecidableEq

/-- Embeds the `role` union of `AssistantMessage` in `types.ts`. -/
inductive MessageRole where
  | user
  | model
deriving DecidableEq

/-- Embeds `User` from `types.ts`. -/
structure User where
  email : String
  name : String
  avatar : Option String
deriving DecidableEq

/-- Embeds `AssistantMessage` from `types.ts`. -/
structure AssistantMessage where
  id : String
  role : MessageRole
  text : String
deriving DecidableEq

/-- Embeds `Book` from `types.ts`. -/
structure Book where
  id : String
  title : String
  coverImage : Option String
  rootFolderId : String
  status : BookStatus
deriving DecidableEq

/-- Embeds `FileNode` from `types.ts`.  Fields that TypeScript marks optional
are `Option`s (`undefined` is `none`).  The non-serializable browser
`fileHandle` (a `FileSystemFileHandle`) plays no role in any claim about the
tree model and is omitted. -/
structure FileNode where
  id : String
  parentId : Option String
  title : String
  type : NodeType
  category : Option FileCategory
  content : Option String
  children : Option (List String)
  wordCount : Option Nat
  lastModified : Nat
  isOpen : Option Bool
  tags : Option (List String)
deriving DecidableEq

/-- Embeds the `fileMap : Record<string, FileNode>` of `AppState`: a JS object
keyed by node id, modeled as an association list (JS object keys are unique;
the well-formedness predicate `nodupKeys` records that). -/
abbrev FileMap := List (String × FileNode)

/-- Embeds `AppState` from `types.ts`. -/
structure AppState where
  view : ViewMode
  user : Option User
  books : List Book
  fileMap : FileMap
  activeBookId : Option String
  activeFileId : Option String
  darkMode : Bool
  focusMode : Bool
  sidebarOpen : Bool
  assistantOpen : Bool
  assistantHistory : List AssistantMessage
deriving DecidableEq

/-- JS property read `m[k]`: first binding of key `k`, or `none` for a key
that is absent (`undefined`). -/
def findNode (m : FileMap) (k : String) : Option FileNode :=
  match m with
  | [] => none
  | (k2, v) :: rest => if k2 = k then some v else findNode rest k

/-- JS property write `m[k] = v` (object spread update): overwrite the
binding in place if present, otherwise append a fresh binding. -/
def insertNode (m : FileMap) (k : String) (v : FileNode) : FileMap :=
  match m with
  | [] => [(k, v)]
  | (k2, v2) :: rest =>
    if k2 = k then (k, v) :: rest else (k2, v2) :: insertNode rest k v

/-- JS `delete m[k]`: remove the binding of key `k` (the first one; key
uniqueness makes it the only one). -/
def eraseNode (m : FileMap) (k : String) : FileMap :=
  match m with
  | [] => []
  | (k2, v2) :: rest =>
    if k2 = k then rest else (k2, v2) :: eraseNode rest k

/-- Keys of the map are pairwise distinct, as they are for a JS object. -/
def nodupKeys (m : FileMap) : Prop := (m.map Prod.fst).Nodup

instance : DecidablePred nodupKeys := fun m =>
  inferInstanceAs (Decidable ((m.map Prod.fst).Nodup))

@[simp] theorem findNode_nil (k : String) : findNode [] k = none := rfl

@[simp] theorem findNode_cons (k2 : String) (v : FileNode) (rest : FileMap) (k : String) :
    findNode ((k2, v) :: rest) k = if k2 = k then some v else findNode rest k := rfl

theorem findNode_insert (m : FileMap) (k : String) (v : FileNode) (k2 : String) :
    findNode (insertNode m k v) k2 = if k2 = k then some v else findNode m k2 := by
  induction m with
  | nil =>
    by_cases h : k2 = k
    · simp [insertNode, findNode, h]
    · simp [insertNode, findNode, h, if_neg (Ne.symm h)]
  | cons kv rest ih =>
    obtain ⟨k3, v3⟩ := kv
    by_cases h3 : k3 = k
    · subst h3
      by_cases h2 : k2 = k3
      · subst h2; simp [insertNode, findNode]
      · simp [insertNode, findNode, h2, if_neg (Ne.symm h2)]
    · by_cases h2 : k3 = k2
      · subst h2
        simp [insertNode, findNode, if_neg h3, if_neg (fun h : k3 = k => h3 h)]
      · simp [insertNode, findNode, if_neg h3, if_neg h2, ih]

theorem mem_of_findNode {m : FileMap} {k : String} {v : FileNode}
    (h : findNode m k = some v) : (k, v) ∈ m := by
  induction m with
  | nil => simp [findNode] at h
  | cons kv rest ih =>
    obtain ⟨k2, v2⟩ := kv
    by_cases h2 : k2 = k
    · subst h2
      rw [findNode_cons, if_pos rfl, Option.some.injEq] at h
      subst h
      exact List.mem_cons_self _ _
    · rw [findNode_cons, if_neg h2] at h
      exact List.mem_cons_of_mem _ (ih h)

theorem findNode_eq_some_of_mem {m : FileMap} {k : String} {v : FileNode}
    (hnd : nodupKeys m) (h : (k, v) ∈ m) : findNode m k = some v := by
  induction m with
  | nil => simp at h
  | cons kv rest ih =>
    obtain ⟨k2, v2⟩ := kv
    simp only [nodupKeys, List.map_cons, List.nodup_cons] at hnd
    rcases List.mem_cons.mp h with h1 | h1
    · rw [Prod.mk.injEq] at h1
      obtain ⟨h1a, h1b⟩ := h1
      subst h1a; subst h1b
      simp [findNode]
    · have hk : k2 ≠ k := by
        intro hkk
        subst hkk
        exact hnd.1 (List.mem_map.mpr ⟨(k2, v), h1, rfl⟩)
      rw [findNode_cons, if_neg hk]
      exact ih hnd.2 h1

theorem findNode_erase (m : FileMap) (hnd : nodupKeys m) (k k2 : String) :
    findNode (eraseNode m k) k2 = if k2 = k then none else findNode m k2 := by
  induction m with
  | nil => simp [eraseNode, findNode]
  | cons kv rest ih =>
    obtain ⟨k3, v3⟩ := kv
    simp only [nodupKeys, List.map_cons, List.nodup_cons] at hnd
    by_cases h3 : k3 = k
    · subst h3
      by_cases h2 : k2 = k3
      · subst h2
        have hnone : findNode rest k2 = none := by
          cases hfind : findNode rest k2 with
          | none => rfl
          | some v =>
            exact absurd (List.mem_map.mpr ⟨(k2, v), mem_of_findNode hfind, rfl⟩) hnd.1
        simp [eraseNode, hnone]
      · simp [eraseNode, findNode, h2, if_neg (Ne.symm h2)]
    · by_cases h2 : k2 = k
      · subst h2
        have hne : ¬k3 = k2 := h3
        simp [eraseNode, findNode, if_neg h3, if_neg hne, ih hnd.2]
      · by_cases h4 : k3 = k2
        · subst h4
          simp [eraseNode, findNode, if_neg h3, h2]
        · simp [eraseNode, findNode, if_neg h3, if_neg h4, h2, ih hnd.2]

theorem keys_insert_subset (m : FileMap) (k : String) (v : FileNode) :
    ∀ k2 v2, (k2, v2) ∈ insertNode m k v → k2 = k ∨ k2 ∈ m.map Prod.fst := by
  induction m with
  | nil =>
    intro k2 v2 h
    simp only [insertNode] at h
    rcases List.mem_singleton.mp h with h2
    rw [Prod.mk.injEq] at h2
    exact Or.inl h2.1
  | cons kv rest ih =>
    obtain ⟨k3, v3⟩ := kv
    intro k2 v2 h
    simp only [insertNode] at h
    by_cases h3 : k3 = k
    · rw [if_pos h3] at h
      rcases List.mem_cons.mp h with h4 | h4
      · rw [Prod.mk.injEq] at h4
        exact Or.inl h4.1
      · exact Or.inr (by subst h3; exact List.mem_map.mpr ⟨(k2, v2), List.mem_cons_of_mem _ h4, rfl⟩)
    · rw [if_neg h3] at h
      rcases List.mem_cons.mp h with h4 | h4
      · rw [Prod.mk.injEq] at h4
        exact Or.inr (by rw [h4.1]; simp)
      · rcases ih k2 v2 h4 with h5 | h5
        · exact Or.inl h5
        · exact Or.inr (by simp [h5])

theorem nodupKeys_insert (m : FileMap) (k : String) (v : FileNode)
    (hnd : nodupKeys m) : nodupKeys (insertNode m k v) := by
  induction m with
  | nil => simp [insertNode, nodupKeys]
  | cons kv rest ih =>
    obtain ⟨k2, v2⟩ := kv
    simp only [nodupKeys, List.map_cons, List.nodup_cons] at hnd
    by_cases h2 : k2 = k
    · subst h2
      have heq : insertNode ((k2, v2) :: rest) k2 v = (k2, v) :: rest := by
        simp [insertNode]
      rw [heq]
      simp only [nodupKeys, List.map_cons, List.nodup_cons]
      exact hnd
    · have hrest := ih hnd.2
      simp only [insertNode, if_neg h2, nodupKeys, List.map_cons, List.nodup_cons]
      refine ⟨?_, hrest⟩
      intro hmem
      rcases List.mem_map.mp hmem with ⟨⟨k3, v3⟩, h3, hk3⟩
      simp only at hk3
      subst hk3
      rcases keys_insert_subset rest k v _ _ h3 with h4 | h4
      · exact h2 h4
      · exact hnd.1 h4

theorem keys_erase_subset (m : FileMap) (k : String) :
    ∀ k2 v2, (k2, v2) ∈ eraseNode m k → k2 ∈ m.map Prod.fst := by
  induction m with
  | nil => intro k2 v2 h; simp [eraseNode] at h
  | cons kv rest ih =>
    obtain ⟨k3, v3⟩ := kv
    intro k2 v2 h
    simp only [eraseNode] at h
    by_cases h3 : k3 = k
    · rw [if_pos h3] at h
      exact List.mem_map.mpr ⟨(k2, v2), List.mem_cons_of_mem _ h, rfl⟩
    · rw [if_neg h3] at h
      rcases List.mem_cons.mp h with h4 | h4
      · rw [Prod.mk.injEq] at h4
        rw [h4.1]; simp
      · simp [ih k2 v2 h4]

theorem nodupKeys_erase (m : FileMap) (k : String)
    (hnd : nodupKeys m) : nodupKeys (eraseNode m k) := by
  induction m with
  | nil => simp [eraseNode, nodupKeys]
  | cons kv rest ih =>
    obtain ⟨k2, v2⟩ := kv
    simp only [nodupKeys, List.map_cons, List.nodup_cons] at hnd
    by_cases h2 : k2 = k
    · simp only [eraseNode, if_pos h2]
      exact hnd.2
    · simp only [eraseNode, if_neg h2, nodupKeys, List.map_cons, List.nodup_cons]
      refine ⟨?_, ih hnd.2⟩
      intro hmem
      rcases List.mem_map.mp hmem with ⟨⟨k3, v3⟩, h3, hk3⟩
      simp only at hk3
      subst hk3
      exact hnd.1 (keys_erase_subset rest k _ _ h3)

/-! ## Word counting

`updateFileContent` in `App.tsx` computes
`content.trim().split(/\s+/).filter(w => w.length > 0).length`.
Strings are embedded as their character lists.  Splitting at every
whitespace character differs from splitting at `/\s+/` only by extra empty
pieces, which the `length > 0` filter removes, so the composite is the same
function. -/

/-- Splitting a character list at every whitespace character (empty pieces
kept, as `String.prototype.split` keeps them). -/
def splitWs : List Char → List (List Char)
  | [] => [[]]
  | c :: cs =>
    match splitWs cs with
    | [] => [[]]
    | w :: ws => if c.isWhitespace then [] :: w :: ws else (c :: w) :: ws

/-- JS `String.prototype.trim`: drop whitespace from both ends. -/
def jsTrim (s : List Char) : List Char :=
  ((s.dropWhile Char.isWhitespace).reverse.dropWhile Char.isWhitespace).reverse

/-- The word count computed by `updateFileContent` in `App.tsx`:
`content.trim().split(/\s+/).filter(w => w.length > 0).length`. -/
def countWordsJs (content : String) : Nat :=
  ((splitWs (jsTrim content.data)).filter (fun w => !w.isEmpty)).length

/-- Modelled from the spec: helper for counting maximal non-whitespace runs;
the flag records whether the previous character was part of a run. -/
def countRunsAux : List Char → Bool → Nat
  | [], _ => 0
  | c :: cs, prev =>
    if c.isWhitespace then countRunsAux cs false
    else (if prev then 0 else 1) + countRunsAux cs true

/-- Modelled from the spec: the "number of maximal non-whitespace runs" of a
character list. -/
def maximalNonWsRuns (s : List Char) : Nat := countRunsAux s false

theorem splitWs_ne_nil (s : List Char) : splitWs s ≠ [] := by
  cases s with
  | nil => simp [splitWs]
  | cons c cs =>
    simp only [splitWs]
    cases splitWs cs with
    | nil => simp
    | cons w ws =>
      by_cases h : c.isWhitespace <;> simp [h]

/-- The filtered split computes the run count, both for a fresh scan and for
a scan that is already inside a run. -/
theorem filter_splitWs_eq_countRuns (s : List Char) :
    ((splitWs s).filter (fun w => !w.isEmpty)).length = countRunsAux s false ∧
    ((splitWs s).filter (fun w => !w.isEmpty)).length =
      countRunsAux s true +
        (if ((splitWs s).headI).isEmpty then 0 else 1) := by
  induction s with
  | nil => simp [splitWs, countRunsAux]
  | cons c cs ih =>
    obtain ⟨ih1, ih2⟩ := ih
    cases hsplit : splitWs cs with
    | nil => exact absurd hsplit (splitWs_ne_nil cs)
    | cons w ws =>
      rw [hsplit] at ih1 ih2
      by_cases hws : c.isWhitespace
      · constructor
        · simp only [splitWs, hsplit, if_pos hws, countRunsAux]
          simpa using ih1
        · simp only [splitWs, hsplit, if_pos hws, countRunsAux]
          simpa using ih1
      · have hhead : ((splitWs (c :: cs)).headI) = c :: w := by
          simp [splitWs, hsplit, if_neg hws]
        constructor
        · simp only [splitWs, hsplit, if_neg hws, countRunsAux]
          simp only [List.filter_cons]
          have : (!(c :: w).isEmpty) = true := by simp
          rw [this]
          simp only [List.length_cons, if_neg hws]
          -- from ih2: filter length over w :: ws equals countRunsAux cs true + head term
          have hsplit2 : ((w :: ws).filter (fun w2 => !w2.isEmpty)).length =
              countRunsAux cs true + (if w.isEmpty then 0 else 1) := by
            simpa using ih2
          by_cases hw : w.isEmpty
          · have hwnil : w = [] := List.isEmpty_iff.mp hw
            subst hwnil
            simp at hsplit2
            simp [List.filter_cons] at hsplit2 ⊢
            omega
          · have : ((w :: ws).filter (fun w2 => !w2.isEmpty)).length =
                1 + (ws.filter (fun w2 => !w2.isEmpty)).length := by
              simp [List.filter_cons, hw]
              omega
            rw [this] at hsplit2
            simp [hw] at hsplit2
            simp [List.filter_cons]
            omega
        · simp only [splitWs, hsplit, if_neg hws, countRunsAux, hhead]
          simp only [List.filter_cons]
          have hne : (!(c :: w).isEmpty) = true := by simp
          rw [hne]
          have hsplit2 : ((w :: ws).filter (fun w2 => !w2.isEmpty)).length =
              countRunsAux cs true + (if w.isEmpty then 0 else 1) := by
            simpa using ih2
          by_cases hw : w.isEmpty
          · have hwnil : w = [] := List.isEmpty_iff.mp hw
            subst hwnil
            simp [List.filter_cons] at hsplit2 ⊢
            omega
          · have : ((w :: ws).filter (fun w2 => !w2.isEmpty)).length =
                1 + (ws.filter (fun w2 => !w2.isEmpty)).length := by
              simp [List.filter_cons, hw]
              omega
            rw [this] at hsplit2
            simp [hw] at hsplit2
            simp [List.filter_cons]
            omega

/-- The composite used by the source equals the spec's "number of maximal
non-whitespace runs of the trimmed text". -/
theorem countWordsJs_eq_runs (content : String) :
    countWordsJs content = maximalNonWsRuns (jsTrim content.data) :=
  (filter_splitWs_eq_countRuns (jsTrim content.data)).1

/-! ## The mutation handlers

Each definition mirrors one handler.  `Date.now()` results are passed in as
a `now : Nat` argument, and the ids produced by `generateId()` are passed in
explicitly (their freshness is a hypothesis of the theorems, as it is a
property of the id generator, not of the handler). -/

/-- Embeds `updateFileContent` of `App.tsx` (the Editor `onChange` handler
feeds into it).  The source spreads `prev.fileMap[id]`; for an id that is
absent that spread would build a malformed record out of `undefined`, a case
no claim touches and which we model as leaving the map unchanged. -/
def updateFileContent (s : AppState) (id content : String) (now : Nat) : AppState :=
  match findNode s.fileMap id with
  | none => s
  | some n =>
    { s with fileMap := (insertNode s.fileMap id
        { n with content := some content
                 wordCount := some (countWordsJs content)
                 lastModified := now }) }

/-- Embeds `createNode` of `App.tsx`.  `none` marks the `TypeError` the
source throws when `parentId` is absent (it reads `parent.children` off
`undefined`); for a parent that exists — of either kind, the source never
checks `type` — the child is attached. -/
def createNode (s : AppState) (ty : NodeType) (parentId : String)
    (newId : String) (now : Nat) : Option AppState :=
  let newNode : FileNode :=
    { id := newId
      parentId := some parentId
      title := if ty = NodeType.FOLDER then "New Folder" else "Untitled"
      type := ty
      category := some FileCategory.IDEA
      content := if ty = NodeType.FILE then some "" else none
      children := if ty = NodeType.FOLDER then some [] else none
      isOpen := some true
      wordCount := some 0
      lastModified := now
      tags := none }
  match findNode s.fileMap parentId with
  | none => none
  | some parent =>
    some { s with
      fileMap :=
        insertNode
          (insertNode s.fileMap parentId
            { parent with children := some ((parent.children.getD []) ++ [newId])
                          isOpen := some true })
          newId newNode
      activeFileId := if ty = NodeType.FILE then some newId else s.activeFileId }

/-- Embeds the recursive `cleanupChildren` closure inside `deleteNode` of
`App.tsx`.  The JS recursion is structurally unbounded (it would diverge on
a cyclic `children` graph), so the embedding carries fuel; `deleteNode`
supplies more fuel than any descending path in a well-formed store can
consume, making the `0` branch unreachable there. -/
def cleanupChildren : Nat → String → FileMap → FileMap
  | 0, _, m => m
  | fuel + 1, id, m =>
    let m2 :=
      match findNode m id with
      | some item => (item.children.getD []).foldl (fun acc c => cleanupChildren fuel c acc) m
      | none => m
    eraseNode m2 id

/-- Embeds `deleteNode` of `App.tsx` (`handleDeleteNode` of the other app
variant is a shallower cousin; the claims cite this one as the cascade).
The leading `alert` branch and the per-node recursion are modeled exactly;
the guard reads the `books` of the same state the updater receives. -/
def deleteNode (s : AppState) (nodeId : String) : AppState :=
  if s.books.any (fun b => b.rootFolderId = nodeId) then s
  else
    match findNode s.fileMap nodeId with
    | none => s
    | some node =>
      match node.parentId with
      | none =>
        let newFileMap := eraseNode s.fileMap nodeId
        let isActiveDeleted := s.activeFileId = some nodeId
        { s with fileMap := newFileMap
                 activeFileId := if isActiveDeleted then none else s.activeFileId }
      | some parentId =>
        match findNode s.fileMap parentId with
        | none => s
        | some parent =>
          let newChildren := (parent.children.getD []).filter (fun c => c ≠ nodeId)
          let newFileMap := cleanupChildren (s.fileMap.length + 1) nodeId s.fileMap
          let newFileMap2 := insertNode newFileMap parentId { parent with children := some newChildren }
          let isActiveFileStillExists := (findNode newFileMap2 (s.activeFileId.getD "")).isSome
          { s with fileMap := newFileMap2
                   activeFileId := if isActiveFileStillExists then s.activeFileId else none }

/-- Embeds `toggleFolder` of `App.tsx` (and the inline `onToggleFolder` of
the variant app).  The source reads `prev.fileMap[nodeId].isOpen` without a
guard, so an unknown id throws a `TypeError` (`none` here); for any id that
resolves — the source never checks the node kind — the flag is flipped
(JS `!undefined` is `true`). -/
def toggleFolder (s : AppState) (nodeId : String) : Option AppState :=
  match findNode s.fileMap nodeId with
  | none => none
  | some n =>
    some { s with fileMap := (insertNode s.fileMap nodeId
        { n with isOpen := some (!(n.isOpen.getD false)) }) }

/-- Embeds `deleteBook` of `App.tsx`.  The `window.confirm` step is modeled
as confirmed (declining leaves the state unchanged and is not the operation
the claims describe).  `none` marks the `TypeError` of `nextBook.id` when
the active book is deleted and no book remains after the filter. -/
def deleteBook (s : AppState) (bookId : String) : Option AppState :=
  if s.books.length ≤ 1 then some s
  else
    let newBooks := s.books.filter (fun b => b.id ≠ bookId)
    if s.activeBookId = some bookId then
      match newBooks.head? with
      | none => none
      | some nextBook =>
        some { s with books := newBooks
                      activeBookId := some nextBook.id
                      activeFileId := none }
    else
      some { s with books := newBooks }

/-- Embeds `handleReorganize` of the drag-and-drop app variant (the
`moveNode` of the spec; `handleDragEnd` of `SidebarNew.tsx` calls it with
the drop target).  There is no cycle or kind check in the source: the only
guards are a missing source node, a source with no parent, and a target
equal to the current parent. -/
def handleReorganizeMove (s : AppState) (sourceId targetParentId : String) : AppState :=
  match findNode s.fileMap sourceId with
  | none => s
  | some sourceNode =>
    match sourceNode.parentId with
    | none => s
    | some oldParentId =>
      if oldParentId = targetParentId then s
      else
        let newMap := s.fileMap
        let newMap :=
          match findNode newMap oldParentId with
          | some oldParent =>
            insertNode newMap oldParentId
              { oldParent with children := some ((oldParent.children.getD []).filter (fun c => c ≠ sourceId)) }
          | none => newMap
        let newMap :=
          match findNode newMap targetParentId with
          | some newParent =>
            insertNode newMap targetParentId
              { newParent with children := some ((newParent.children.getD []) ++ [sourceId])
                               isOpen := some true }
          | none => newMap
        let newMap := insertNode newMap sourceId { sourceNode with parentId := some targetParentId }
        { s with fileMap := newMap }

/-- JS `Set.prototype.add` on an insertion-ordered set of strings. -/
def jsSetAdd (l : List String) (x : String) : List String :=
  if x ∈ l then l else l ++ [x]

/-- JS `Set.prototype.delete` on an insertion-ordered set of strings. -/
def jsSetDelete (l : List String) (x : String) : List String :=
  l.filter (fun y => y ≠ x)

/-- JS `new Set(l)` followed by `Array.from`: dedups, keeping first
occurrences in order. -/
def jsSetOf (l : List String) : List String :=
  l.foldl jsSetAdd []

/-- One entry of the `folders` argument of `handleReorganize` in `App.tsx`
(the AI folder suggestions: a folder name and the file ids to move into it). -/
structure ReorgFolder where
  name : String
  fileIds : List String
deriving DecidableEq

/-- The node literal `handleReorganize` builds for a suggested folder (the
`newFolder` object of the source), with its `children` array in the state
the mutating pushes have brought it to. -/
def bulkFolderNode (folderId rootId name : String) (now : Nat)
    (kids : List String) : FileNode :=
  { id := folderId
    parentId := some rootId
    title := name
    type := NodeType.FOLDER
    category := none
    content := none
    children := some kids
    isOpen := some true
    lastModified := now
    wordCount := some 0
    tags := none }

/-- One iteration of the `folder.fileIds.forEach` loop: a resolving file id
is re-parented under the new folder, dropped from the root-children set and
pushed onto the folder's children; a missing id is skipped. -/
def bulkMoveStep (folderId : String)
    (acc : FileMap × List String × List String) (fileId : String) :
    FileMap × List String × List String :=
  match findNode acc.1 fileId with
  | some fn =>
    (insertNode acc.1 fileId { fn with parentId := some folderId },
     jsSetDelete acc.2.1 fileId,
     acc.2.2 ++ [fileId])
  | none => acc

/-- One iteration of the `folders.forEach` loop of `handleReorganize` in
`App.tsx`: create the folder under the root, then move every listed file id
that resolves into it.  The JS loop pushes into the `children` array of the
very object stored in the map; the trailing insert writes the accumulated
children list (and, in the degenerate aliasing case where a listed fileId
equals the freshly generated folder id, the parent pointer the spread
assignment gave that shared object). -/
def bulkFolderStep (rootId : String) (now : Nat)
    (st : FileMap × List String) (pr : String × ReorgFolder) : FileMap × List String :=
  let folderId := pr.1
  let folder := pr.2
  let newFolder : FileNode := bulkFolderNode folderId rootId folder.name now []
  let m0 := insertNode st.1 folderId newFolder
  let set0 := jsSetAdd st.2 folderId
  let r := folder.fileIds.foldl (bulkMoveStep folderId) (m0, set0, [])
  (insertNode r.1 folderId
    { newFolder with
        children := some r.2.2
        parentId := if folderId ∈ r.2.2 then some folderId else some rootId },
   r.2.1)

/-- Embeds `handleReorganize` of `App.tsx` (the spec's `bulkReorganize`).
`gen` supplies the ids `generateId()` produces for the new folders, one per
entry of `folders`.  A missing active book is the source's silent early
`return`; `none` marks the `TypeError` of `new Set(root.children)` when the
active book's root id is not in the map. -/
def handleReorganize (s : AppState) (gen : List String)
    (folders : List ReorgFolder) (now : Nat) : Option AppState :=
  match s.activeBookId with
  | none => some s
  | some abid =>
    match s.books.find? (fun b => b.id = abid) with
    | none => some s
    | some activeBook =>
      let rootId := activeBook.rootFolderId
      match findNode s.fileMap rootId with
      | none => none
      | some root =>
        let st0 : FileMap × List String := (s.fileMap, jsSetOf (root.children.getD []))
        let r := (gen.zip folders).foldl (bulkFolderStep rootId now) st0
        some { s with fileMap := (insertNode r.1 rootId { root with children := some r.2 }) }

/-- Embeds the `defaultState` constant of the file-system app variant (the
one whose `getInitialState` the persistence claim cites). -/
def defaultState : AppState :=
  { view := ViewMode.LANDING
    user := none
    books := []
    fileMap := []
    activeBookId := none
    activeFileId := none
    darkMode := false
    focusMode := false
    sidebarOpen := true
    assistantOpen := false
    assistantHistory := [] }

/-- Embeds `getInitialState`.  The `localStorage.getItem` result is `saved`
(`none` when the slot is absent); `JSON.parse`, a platform collaborator, is
the `parse` argument, with `.error` standing for the `SyntaxError` it throws
on unparseable input — the source calls it with no `try`/`catch`, so the
error propagates out of `getInitialState`.  `prefersDark` is the
`window.matchMedia` probe. -/
def getInitialState (saved : Option String)
    (parse : String → Except String AppState) (prefersDark : Bool) :
    Except String AppState :=
  match saved with
  | none =>
    let st := defaultState
    let st := if st.view = ViewMode.EDITOR then { st with sidebarOpen := true } else st
    let st := if prefersDark then { st with darkMode := true } else st
    Except.ok st
  | some blob =>
    match parse blob with
    | Except.error e => Except.error e
    | Except.ok st =>
      let st := if st.view = ViewMode.EDITOR then { st with sidebarOpen := true } else st
      Except.ok st

/-! ## The forest invariant and well-formedness of a store -/

/-- The forest condition at one node: if its `parentId` is non-null, the
parent exists, is a FOLDER, and lists the node's id exactly once. -/
def parentOkAt (m : FileMap) (k : String) (n : FileNode) : Bool :=
  match n.parentId with
  | none => true
  | some p =>
    match findNode m p with
    | none => false
    | some pn => pn.type = NodeType.FOLDER && (pn.children.getD []).count k == 1

/-- The forest invariant of the spec, over every node in the store. -/
def forestInv (m : FileMap) : Prop :=
  ∀ kv ∈ m, parentOkAt m kv.1 kv.2 = true

instance : DecidablePred forestInv := fun m =>
  inferInstanceAs (Decidable (∀ kv ∈ m, parentOkAt m kv.1 kv.2 = true))

/-- The converse direction: every id listed in a `children` array resolves,
and the child's `parentId` points back at the listing folder. -/
def childOkAt (m : FileMap) (k : String) (n : FileNode) : Bool :=
  (n.children.getD []).all (fun c =>
    match findNode m c with
    | none => false
    | some cn => cn.parentId == some k)

/-- All `children` arrays of the store are backed by matching parent
pointers. -/
def childrenOk (m : FileMap) : Prop :=
  ∀ kv ∈ m, childOkAt m kv.1 kv.2 = true

instance : DecidablePred childrenOk := fun m =>
  inferInstanceAs (Decidable (∀ kv ∈ m, childOkAt m kv.1 kv.2 = true))

/-- A ranking certificate of acyclicity: some height function strictly
decreases along every `children` edge of the store. -/
def descHeights (m : FileMap) (h : String → Nat) : Prop :=
  ∀ kv ∈ m, ∀ c ∈ kv.2.children.getD [], h c < h kv.1

instance (m : FileMap) (h : String → Nat) : Decidable (descHeights m h) :=
  inferInstanceAs (Decidable (∀ kv ∈ m, ∀ c ∈ kv.2.children.getD [], h c < h kv.1))

/-- Transitive descendant via `parentId` links, the relation the spec's
delete-cascade property quantifies over: `IsDescendant m a d` holds when
following `parentId` pointers up from `d` reaches `a`. -/
inductive IsDescendant (m : FileMap) : String → String → Prop
  | base {a d n} : findNode m d = some n → n.parentId = some a → IsDescendant m a d
  | step {a p d n} : findNode m d = some n → n.parentId = some p →
      IsDescendant m a p → IsDescendant m a d

/-- Reflexive-transitive reachability along `children` arrays, the set of
ids the recursive delete of `App.tsx` visits. -/
inductive ChildReach (m : FileMap) : String → String → Prop
  | refl (k) : ChildReach m k k
  | head {i n c k} : findNode m i = some n → c ∈ n.children.getD [] →
      ChildReach m c k → ChildReach m i k

/-- Find-based restatement of the forest invariant (the two agree; this one
drives the preservation proofs). -/
def forestInvF (m : FileMap) : Prop :=
  ∀ k n, findNode m k = some n → parentOkAt m k n = true

theorem forestInvF_of_forestInv {m : FileMap} (h : forestInv m) : forestInvF m :=
  fun _ n hf => h (_, n) (mem_of_findNode hf)

theorem forestInv_of_forestInvF {m : FileMap} (hnd : nodupKeys m)
    (h : forestInvF m) : forestInv m :=
  fun kv hkv => h kv.1 kv.2 (findNode_eq_some_of_mem hnd hkv)

/-- Find-based form of `childrenOk`. -/
def childrenOkF (m : FileMap) : Prop :=
  ∀ k n, findNode m k = some n → childOkAt m k n = true

theorem childrenOkF_of_childrenOk {m : FileMap} (h : childrenOk m) : childrenOkF m :=
  fun _ n hf => h (_, n) (mem_of_findNode hf)

/-- Find-based form of `descHeights`. -/
theorem descHeights_find {m : FileMap} {h : String → Nat} (hd : descHeights m h)
    {k : String} {n : FileNode} (hf : findNode m k = some n) :
    ∀ c ∈ n.children.getD [], h c < h k :=
  hd (k, n) (mem_of_findNode hf)

/-- Unpacked form of `parentOkAt`. -/
theorem parentOkAt_iff (m : FileMap) (k : String) (n : FileNode) :
    parentOkAt m k n = true ↔
      ∀ p, n.parentId = some p →
        ∃ pn, findNode m p = some pn ∧ pn.type = NodeType.FOLDER ∧
          (pn.children.getD []).count k = 1 := by
  unfold parentOkAt
  cases hp : n.parentId with
  | none => simp
  | some p =>
    cases hf : findNode m p with
    | none => simp [hf]
    | some pn =>
      simp only [hf, Bool.and_eq_true, decide_eq_true_eq, beq_iff_eq]
      constructor
      · rintro ⟨h1, h2⟩ q hq
        cases hq
        exact ⟨pn, hf, h1, h2⟩
      · intro hh
        obtain ⟨pn2, hpn2, h1, h2⟩ := hh p rfl
        rw [hf] at hpn2
        cases hpn2
        exact ⟨h1, h2⟩

/-- Unpacked form of `childOkAt`. -/
theorem childOkAt_iff (m : FileMap) (k : String) (n : FileNode) :
    childOkAt m k n = true ↔
      ∀ c ∈ n.children.getD [],
        ∃ cn, findNode m c = some cn ∧ cn.parentId = some k := by
  unfold childOkAt
  rw [List.all_eq_true]
  constructor
  · intro hh c hc
    have := hh c hc
    cases hf : findNode m c with
    | none => rw [hf] at this; simp at this
    | some cn =>
      rw [hf] at this
      simp only [beq_iff_eq] at this
      exact ⟨cn, rfl, this⟩
  · intro hh c hc
    obtain ⟨cn, hcn, hp⟩ := hh c hc
    rw [hcn]
    simp [hp]

/-! ## Concrete fixture states used by witnesses and counterexamples -/

/-- A root folder node with children `cs`. -/
def mkFolder (id : String) (parent : Option String) (cs : List String) : FileNode :=
  { id := id
    parentId := parent
    title := "Folder"
    type := NodeType.FOLDER
    category := none
    content := none
    children := some cs
    wordCount := none
    lastModified := 0
    isOpen := some true
    tags := none }

/-- A file node under `parent`. -/
def mkFile (id : String) (parent : Option String) : FileNode :=
  { id := id
    parentId := parent
    title := "File"
    type := NodeType.FILE
    category := some FileCategory.CHAPTER
    content := some ""
    children := none
    wordCount := some 0
    lastModified := 0
    isOpen := none
    tags := none }

/-- A one-book application state over the map `m` with root id `r`. -/
def mkState (m : FileMap) (active : Option String) : AppState :=
  { view := ViewMode.EDITOR
    user := none
    books := [{ id := "bk", title := "The Golden Age", coverImage := none,
                rootFolderId := "r", status := BookStatus.Drafting }]
    fileMap := m
    activeBookId := some "bk"
    activeFileId := active
    darkMode := false
    focusMode := false
    sidebarOpen := true
    assistantOpen := false
    assistantHistory := [] }

/-- Root with a folder chain `r → a → b`. -/
def fxChain : FileMap :=
  [("r", mkFolder "r" none ["a"]),
   ("a", mkFolder "a" (some "r") ["b"]),
   ("b", mkFolder "b" (some "a") [])]

/-- Root with one file child `f`. -/
def fxRootFile : FileMap :=
  [("r", mkFolder "r" none ["f"]), ("f", mkFile "f" (some "r"))]

/-! ## Claim C4: root protection in deleteNode -/

/-- C4: for every workspace in the registry, `deleteNode` applied to that
workspace's root folder id refuses the deletion (the `alert` guard branch)
and returns the state — node store included — completely unchanged. -/
theorem claim_C4 (s : AppState) (b : Book) (nodeId : String)
    (hb : b ∈ s.books) (hroot : b.rootFolderId = nodeId) :
    deleteNode s nodeId = s := by
  have hany : (s.books.any fun b2 => b2.rootFolderId = nodeId) = true := by
    rw [List.any_eq_true]
    exact ⟨b, hb, by simp [hroot]⟩
  unfold deleteNode
  simp [hany]

/-- Witness for C4 on a concrete two-node store. -/
theorem claim_C4_witness :
    ({ id := "bk", title := "The Golden Age", coverImage := none,
       rootFolderId := "r", status := BookStatus.Drafting } : Book) ∈
        (mkState fxRootFile (some "f")).books ∧
    deleteNode (mkState fxRootFile (some "f")) "r" = mkState fxRootFile (some "f") :=
  ⟨by decide,
   claim_C4 (mkState fxRootFile (some "f"))
     { id := "bk", title := "The Golden Age", coverImage := none,
       rootFolderId := "r", status := BookStatus.Drafting } "r" (by decide) rfl⟩

/-! ## Claim C10: moving a node onto its current parent is a no-op -/

/-- C10: when the drop target resolves to the node's current parent, the
move handler returns the previous state object unchanged — nothing is
removed or re-appended, no field of any node changes. -/
theorem claim_C10 (s : AppState) (sourceId p : String) (n : FileNode)
    (hfind : findNode s.fileMap sourceId = some n)
    (hpar : n.parentId = some p) :
    handleReorganizeMove s sourceId p = s := by
  unfold handleReorganizeMove
  rw [hfind]
  simp only []
  rw [hpar]
  simp

/-- Witness for C10: moving the file `f` onto its own parent `r`. -/
theorem claim_C10_witness :
    findNode fxRootFile "f" = some (mkFile "f" (some "r")) ∧
    handleReorganizeMove (mkState fxRootFile (some "f")) "f" "r" =
      mkState fxRootFile (some "f") :=
  ⟨by decide, claim_C10 (mkState fxRootFile (some "f")) "f" "r"
    (mkFile "f" (some "r")) (by decide) rfl⟩

/-! ## Claim C6: word count correctness of updateContent -/

/-- C6: `updateFileContent` stores, for any present id, exactly the number
of maximal non-whitespace runs of the trimmed text as `wordCount` (a `Nat`,
hence never negative, and the empty-token filter is part of the
computation); in particular the empty text yields `0` and a text of two
runs yields `2`. -/
theorem claim_C6 (s : AppState) (id content : String) (now : Nat) (n : FileNode)
    (hfind : findNode s.fileMap id = some n) :
    findNode (updateFileContent s id content now).fileMap id =
      some { n with content := some content
                    wordCount := some (maximalNonWsRuns (jsTrim content.data))
                    lastModified := now } ∧
    (∀ text : String, countWordsJs text = maximalNonWsRuns (jsTrim text.data)) ∧
    countWordsJs "" = 0 ∧
    countWordsJs "  a   b  " = 2 := by
  refine ⟨?_, countWordsJs_eq_runs, by decide, by decide⟩
  unfold updateFileContent
  rw [hfind]
  simp [findNode_insert, countWordsJs_eq_runs]

/-- Witness for C6: editing the file `f` to hold two words. -/
theorem claim_C6_witness :
    findNode fxRootFile "f" = some (mkFile "f" (some "r")) ∧
    findNode (updateFileContent (mkState fxRootFile (some "f")) "f" " one two " 7).fileMap "f" =
      some { mkFile "f" (some "r") with
                content := some " one two "
                wordCount := some (maximalNonWsRuns (jsTrim " one two ".data))
                lastModified := 7 } :=
  ⟨by decide,
   (claim_C6 (mkState fxRootFile (some "f")) "f" " one two " 7
     (mkFile "f" (some "r")) (by decide)).1⟩

/-! ## Claim C9: toggleFolder -/

/-- C9 counterexample: the claim promises a silent no-op for an id that is
not found and for an id that is not a FOLDER.  On the concrete store with
one root and one FILE `f`, toggling an unknown id throws (the updater reads
`isOpen` off `undefined`), and toggling the FILE `f` mutates it (its
`isOpen` flag appears), so neither call leaves the state unchanged. -/
theorem claim_C9_counterexample :
    toggleFolder (mkState fxRootFile (some "f")) "missing" = none ∧
    toggleFolder (mkState fxRootFile (some "f")) "f" ≠
      some (mkState fxRootFile (some "f")) := by decide

/-- C9 as amended: for an id that resolves to any node — FOLDER or FILE,
the source never checks the kind — `toggleFolder` flips that node's
`isOpen` flag (JS `!undefined` makes an absent flag `true`) and changes
nothing else; for an id not in the store the state updater throws a
`TypeError` instead of no-opping. -/
theorem claim_C9_amended (s : AppState) (id : String) :
    (∀ n, findNode s.fileMap id = some n →
      toggleFolder s id =
        some { s with fileMap := (insertNode s.fileMap id
          { n with isOpen := some (!(n.isOpen.getD false)) }) }) ∧
    (findNode s.fileMap id = none → toggleFolder s id = none) := by
  constructor
  · intro n hfind
    unfold toggleFolder
    rw [hfind]
  · intro hfind
    unfold toggleFolder
    rw [hfind]

/-- Witness for the amended C9 at the concrete store: flipping the root
folder. -/
theorem claim_C9_amended_witness :
    findNode fxRootFile "r" = some (mkFolder "r" none ["f"]) ∧
    toggleFolder (mkState fxRootFile (some "f")) "r" =
      some { mkState fxRootFile (some "f") with
        fileMap := (insertNode fxRootFile "r"
          { mkFolder "r" none ["f"] with isOpen := some false }) } := by
  refine ⟨by decide, ?_⟩
  have h := (claim_C9_amended (mkState fxRootFile (some "f")) "r").1
    (mkFolder "r" none ["f"]) (by decide)
  simpa using h

/-! ## Claim C5: deleteWorkspace -/

/-- The two-book fixture: a second book `bk2` with root `r2` (one file
`f2`) beside the `bk` tree. -/
def fx2Books : AppState :=
  { mkState (fxRootFile ++ [("r2", mkFolder "r2" none ["f2"]), ("f2", mkFile "f2" (some "r2"))])
      (some "f") with
    books := [{ id := "bk", title := "The Golden Age", coverImage := none,
                rootFolderId := "r", status := BookStatus.Drafting },
              { id := "bk2", title := "Second", coverImage := none,
                rootFolderId := "r2", status := BookStatus.Planning }] }

/-- C5 counterexample: deleting the non-active workspace `bk2` removes only
the registry record; its root `r2` and file `f2` remain resolvable in the
node store, so the claimed subtree cascade does not happen. -/
theorem claim_C5_counterexample :
    deleteBook fx2Books "bk2" =
      some { fx2Books with
        books := [{ id := "bk", title := "The Golden Age", coverImage := none,
                    rootFolderId := "r", status := BookStatus.Drafting }] } ∧
    findNode fx2Books.fileMap "r2" = some (mkFolder "r2" none ["f2"]) ∧
    findNode fx2Books.fileMap "f2" = some (mkFile "f2" (some "r2")) := by decide

/-- C5 as amended: for a workspace id that is not the only workspace (and,
when it is the active one, with at least one other workspace record left),
`deleteBook` removes the workspace record and leaves the node store
untouched — the subtree rooted at the workspace's root is not deleted; if
the deleted workspace was active, the active workspace becomes the first
remaining one in registry order and the active node becomes null. -/
theorem claim_C5_amended (s : AppState) (bookId : String)
    (h2 : 1 < s.books.length) :
    (∀ s2, deleteBook s bookId = some s2 → s2.fileMap = s.fileMap) ∧
    (∀ nextBook, (s.books.filter (fun b => b.id ≠ bookId)).head? = some nextBook →
      s.activeBookId = some bookId →
      deleteBook s bookId =
        some { s with books := s.books.filter (fun b => b.id ≠ bookId)
                      activeBookId := some nextBook.id
                      activeFileId := none }) ∧
    (s.activeBookId ≠ some bookId →
      deleteBook s bookId =
        some { s with books := s.books.filter (fun b => b.id ≠ bookId) }) := by
  have hlen : ¬s.books.length ≤ 1 := by omega
  refine ⟨?_, ?_, ?_⟩
  · intro s2 hdel
    unfold deleteBook at hdel
    rw [if_neg hlen] at hdel
    by_cases hact : s.activeBookId = some bookId
    · rw [if_pos hact] at hdel
      cases hh : (s.books.filter (fun b => b.id ≠ bookId)).head? with
      | none => rw [hh] at hdel; cases hdel
      | some nb =>
        rw [hh] at hdel
        cases hdel
        rfl
    · rw [if_neg hact] at hdel
      cases hdel
      rfl
  · intro nextBook hh hact
    unfold deleteBook
    rw [if_neg hlen, if_pos hact, hh]
  · intro hact
    unfold deleteBook
    rw [if_neg hlen, if_neg hact]

/-- Witness for the amended C5: deleting the active second book of the
two-book fixture (with `bk2` active). -/
theorem claim_C5_amended_witness :
    1 < ({ fx2Books with activeBookId := some "bk2" } : AppState).books.length ∧
    deleteBook { fx2Books with activeBookId := some "bk2" } "bk2" =
      some { fx2Books with
        books := [{ id := "bk", title := "The Golden Age", coverImage := none,
                    rootFolderId := "r", status := BookStatus.Drafting }]
        activeBookId := some "bk"
        activeFileId := none } := by
  refine ⟨by decide, ?_⟩
  have h := (claim_C5_amended { fx2Books with activeBookId := some "bk2" } "bk2"
    (by decide)).2.1
    { id := "bk", title := "The Golden Age", coverImage := none,
      rootFolderId := "r", status := BookStatus.Drafting }
    (by decide) rfl
  simpa using h

/-! ## Claim C7: corrupt snapshots -/

/-- C7: the claim says a corrupt snapshot must fail soft (load as absent so
the default state is used).  The source calls `JSON.parse` with no
`try`/`catch`, so whenever the parser rejects the stored blob the error
propagates straight out of `getInitialState` — the code evaluated at the
failing input produces the error, not a fallback state. -/
theorem claim_C7_bug (parse : String → Except String AppState)
    (blob e : String) (prefersDark : Bool)
    (h : parse blob = Except.error e) :
    getInitialState (some blob) parse prefersDark = Except.error e := by
  unfold getInitialState
  simp only []
  rw [h]

/-- The platform JSON parser evaluated on a corrupt snapshot: it rejects
every input the way `JSON.parse` rejects a truncated blob. -/
def parseRejecting : String → Except String AppState :=
  fun _ => Except.error "SyntaxError"

/-- Witness for C7: the rejection of a concrete corrupt blob propagates. -/
theorem claim_C7_bug_witness :
    parseRejecting "corrupt blob" = Except.error "SyntaxError" ∧
    getInitialState (some "corrupt blob") parseRejecting false =
      Except.error "SyntaxError" :=
  ⟨rfl, claim_C7_bug parseRejecting "corrupt blob" "SyntaxError" false rfl⟩

/-! ## Claim C3: no cycle detection in the move handler -/

/-- The store after dragging folder `a` onto its own child `b` in the
chain fixture `r → a → b`. -/
def fxChainMoved : FileMap :=
  [("r", mkFolder "r" none []),
   ("a", { mkFolder "a" (some "b") ["b"] with isOpen := some true }),
   ("b", { mkFolder "b" (some "a") ["a"] with isOpen := some true })]

/-- C3: the claim (and the spec's no-cycle invariant) requires the move of
a node onto its own descendant to fail and leave the tree unchanged.  The
handler has no such check: dragging folder `a` onto its child `b` succeeds,
re-parents `a` under `b`, removes `a` from the root's children, and leaves
`a` a descendant of itself — a cycle, with the subtree unreachable from the
root. -/
theorem claim_C3_bug :
    handleReorganizeMove (mkState fxChain none) "a" "b" =
      { mkState fxChain none with fileMap := fxChainMoved } ∧
    handleReorganizeMove (mkState fxChain none) "a" "b" ≠ mkState fxChain none ∧
    IsDescendant fxChainMoved "a" "a" := by
  refine ⟨by decide, by decide, ?_⟩
  have hb : findNode fxChainMoved "b" = some { mkFolder "b" (some "a") ["a"] with isOpen := some true } := by decide
  have ha : findNode fxChainMoved "a" = some { mkFolder "a" (some "b") ["b"] with isOpen := some true } := by decide
  exact IsDescendant.step ha rfl (IsDescendant.base hb rfl)

/-! ## Paths in a well-formed store

In a store satisfying the forest invariant, its converse, and a height
certificate, the `children` graph is a forest: every node has at most one
incoming edge, ancestors of a node form a chain, and the subtrees of two
distinct children of one node are disjoint.  These facts drive the
correctness proof of the recursive delete. -/

/-- One `children` edge of the store. -/
def ChildEdge (m : FileMap) (i c : String) : Prop :=
  ∃ n, findNode m i = some n ∧ c ∈ n.children.getD []

theorem height_le_of_reach {m : FileMap} {h : String → Nat} (hH : descHeights m h)
    {a b : String} (hr : ChildReach m a b) : h b ≤ h a := by
  induction hr with
  | refl k => exact le_refl _
  | head hf hc _ ih =>
    exact le_trans ih (le_of_lt (descHeights_find hH hf _ hc))

theorem childEdge_unique {m : FileMap} (hCO : childrenOkF m)
    {x y c : String} (hx : ChildEdge m x c) (hy : ChildEdge m y c) : x = y := by
  obtain ⟨nx, hnx, hcx⟩ := hx
  obtain ⟨ny, hny, hcy⟩ := hy
  obtain ⟨cnx, hc1, hp1⟩ := (childOkAt_iff m x nx).mp (hCO x nx hnx) c hcx
  obtain ⟨cny, hc2, hp2⟩ := (childOkAt_iff m y ny).mp (hCO y ny hny) c hcy
  rw [hc1] at hc2
  cases hc2
  rw [hp1] at hp2
  exact Option.some.injEq .. ▸ (hp2 : some x = some y) |>.symm ▸ rfl

theorem reach_through_edge {m : FileMap} (hCO : childrenOkF m)
    {c y : String} (hr : ChildReach m y c) :
    ∀ x, ChildEdge m x c → y = c ∨ ChildReach m y x := by
  induction hr with
  | refl k =>
    intro x _
    exact Or.inl rfl
  | head hf hc hr2 ih =>
    rename_i i n d k
    intro x hx
    rcases ih x hx with h1 | h1
    · subst h1
      have hix : i = x := childEdge_unique hCO ⟨n, hf, hc⟩ hx
      cases hix
      exact Or.inr (ChildReach.refl _)
    · exact Or.inr (ChildReach.head hf hc h1)

theorem reach_comparable {m : FileMap} (hCO : childrenOkF m)
    {x k : String} (hx : ChildReach m x k) :
    ∀ y, ChildReach m y k → ChildReach m x y ∨ ChildReach m y x := by
  induction hx with
  | refl a =>
    intro y hy
    exact Or.inr hy
  | head hf hc hr ih =>
    rename_i i n c k2
    intro y hy
    rcases ih y hy with h1 | h1
    · exact Or.inl (ChildReach.head hf hc h1)
    · rcases reach_through_edge hCO h1 i ⟨n, hf, hc⟩ with h2 | h2
      · subst h2
        exact Or.inl (ChildReach.head hf hc (ChildReach.refl _))
      · exact Or.inr h2

theorem subtree_disjoint {m : FileMap} (hCO : childrenOkF m)
    {h : String → Nat} (hH : descHeights m h)
    {i c1 c2 k : String} (he1 : ChildEdge m i c1) (he2 : ChildEdge m i c2)
    (hne : c1 ≠ c2) (hr1 : ChildReach m c1 k) (hr2 : ChildReach m c2 k) : False := by
  have hlt1 : h c1 < h i := by
    obtain ⟨n, hf, hc⟩ := he1
    exact descHeights_find hH hf _ hc
  have hlt2 : h c2 < h i := by
    obtain ⟨n, hf, hc⟩ := he2
    exact descHeights_find hH hf _ hc
  rcases reach_comparable hCO hr1 c2 hr2 with h1 | h1
  · rcases reach_through_edge hCO h1 i he2 with h2 | h2
    · exact hne h2
    · have := height_le_of_reach hH h2
      omega
  · rcases reach_through_edge hCO h1 i he1 with h2 | h2
    · exact hne h2.symm
    · have := height_le_of_reach hH h2
      omega

/-- In a well-formed store no `children` array repeats an entry: each child
is counted exactly once by its own parent. -/
theorem childList_nodup {m : FileMap} (hPO : forestInvF m) (hCO : childrenOkF m)
    {i : String} {n : FileNode} (hf : findNode m i = some n) :
    (n.children.getD []).Nodup := by
  rw [List.nodup_iff_count_le_one]
  intro c
  by_cases hc : c ∈ n.children.getD []
  · obtain ⟨cn, hcn, hp⟩ := (childOkAt_iff m i n).mp (hCO i n hf) c hc
    obtain ⟨pn, hpn, _, hcount⟩ := (parentOkAt_iff m c cn).mp (hPO c cn hcn) i hp
    rw [hf] at hpn
    cases hpn
    omega
  · rw [List.count_eq_zero_of_not_mem hc]
    omega

/-- The parent of a stored node is never inside the node's own subtree. -/
theorem parent_not_reached {m : FileMap} (hPO : forestInvF m)
    {h : String → Nat} (hH : descHeights m h)
    {nodeId p : String} {node : FileNode}
    (hf : findNode m nodeId = some node) (hp : node.parentId = some p) :
    ¬ChildReach m nodeId p := by
  intro hr
  obtain ⟨pn, hpn, _, hcount⟩ := (parentOkAt_iff m nodeId node).mp (hPO nodeId node hf) p hp
  have hmem : nodeId ∈ pn.children.getD [] := by
    rw [← List.count_pos_iff]
    omega
  have h1 : h nodeId < h p := descHeights_find hH hpn _ hmem
  have h2 : h p ≤ h nodeId := height_le_of_reach hH hr
  omega

/-- Extending reachability by one `children` edge at the bottom. -/
theorem childReach_snoc {m : FileMap} {a p d : String}
    (hr : ChildReach m a p) (he : ChildEdge m p d) : ChildReach m a d := by
  induction hr with
  | refl k =>
    obtain ⟨n, hf, hc⟩ := he
    exact ChildReach.head hf hc (ChildReach.refl _)
  | head hf hc _ ih =>
    exact ChildReach.head hf hc (ih he)

/-- Every `parentId`-descendant is reachable along `children` arrays: the
forest invariant turns each parent pointer into a listing. -/
theorem childReach_of_isDescendant {m : FileMap} (hPO : forestInvF m)
    {a d : String} (hd : IsDescendant m a d) : ChildReach m a d := by
  induction hd with
  | @base d2 n hf hp =>
    obtain ⟨pn, hpn, _, hcount⟩ := (parentOkAt_iff m d2 n).mp (hPO d2 n hf) a hp
    have hmem : d2 ∈ pn.children.getD [] := by
      rw [← List.count_pos_iff]
      omega
    exact ChildReach.head hpn hmem (ChildReach.refl _)
  | @step p2 d2 n hf hp _ ih =>
    obtain ⟨pn, hpn, _, hcount⟩ := (parentOkAt_iff m d2 n).mp (hPO d2 n hf) p2 hp
    have hmem : d2 ∈ pn.children.getD [] := by
      rw [← List.count_pos_iff]
      omega
    exact childReach_snoc ih ⟨pn, hpn, hmem⟩

/-! ## Correctness of the recursive delete

`cleanupChildren fuel id acc` removes exactly the ids reachable from `id`
along the `children` arrays of the reference store `m`, provided `acc` is
`m` with some unrelated subtrees already removed and the fuel dominates the
height of `id`.  The fold over the children needs the disjointness of
sibling subtrees established above. -/

theorem cleanupChildren_succ (fuel : Nat) (id : String) (m : FileMap) :
    cleanupChildren (fuel + 1) id m =
      eraseNode
        (match findNode m id with
         | some item =>
           (item.children.getD []).foldl (fun acc c => cleanupChildren fuel c acc) m
         | none => m) id := rfl

theorem cleanup_fold {m : FileMap} (hCO : childrenOkF m)
    {h : String → Nat} (hH : descHeights m h) (fuel : Nat)
    (IH : ∀ id acc, nodupKeys acc →
      (∀ k, findNode acc k = findNode m k ∨ findNode acc k = none) →
      (∀ k, ChildReach m id k → findNode acc k = findNode m k) →
      h id < fuel →
      nodupKeys (cleanupChildren fuel id acc) ∧
      (∀ k, ChildReach m id k → findNode (cleanupChildren fuel id acc) k = none) ∧
      (∀ k, ¬ChildReach m id k →
        findNode (cleanupChildren fuel id acc) k = findNode acc k))
    (i : String) :
    ∀ (cs : List String) (acc : FileMap),
      cs.Nodup → (∀ c ∈ cs, ChildEdge m i c) → (∀ c ∈ cs, h c < fuel) →
      nodupKeys acc →
      (∀ k, findNode acc k = findNode m k ∨ findNode acc k = none) →
      (∀ c ∈ cs, ∀ k, ChildReach m c k → findNode acc k = findNode m k) →
      nodupKeys (cs.foldl (fun a c => cleanupChildren fuel c a) acc) ∧
      (∀ k, (∃ c ∈ cs, ChildReach m c k) →
        findNode (cs.foldl (fun a c => cleanupChildren fuel c a) acc) k = none) ∧
      (∀ k, (¬∃ c ∈ cs, ChildReach m c k) →
        findNode (cs.foldl (fun a c => cleanupChildren fuel c a) acc) k = findNode acc k) := by
  intro cs
  induction cs with
  | nil =>
    intro acc _ _ _ hnd _ _
    exact ⟨hnd, by simp, fun k _ => rfl⟩
  | cons c cs ih2 =>
    intro acc hnodup hedge hfu hnd hsub hagree
    obtain ⟨hnd1, hA1, hB1⟩ := IH c acc hnd hsub
      (hagree c (List.mem_cons_self c cs)) (hfu c (List.mem_cons_self c cs))
    have hfold : (c :: cs).foldl (fun a c2 => cleanupChildren fuel c2 a) acc
        = cs.foldl (fun a c2 => cleanupChildren fuel c2 a) (cleanupChildren fuel c acc) := rfl
    rw [hfold]
    have hnodup2 : cs.Nodup := (List.nodup_cons.mp hnodup).2
    have hcnotin : c ∉ cs := (List.nodup_cons.mp hnodup).1
    have hsub1 : ∀ k, findNode (cleanupChildren fuel c acc) k = findNode m k ∨
        findNode (cleanupChildren fuel c acc) k = none := by
      intro k
      by_cases hk : ChildReach m c k
      · exact Or.inr (hA1 k hk)
      · rw [hB1 k hk]; exact hsub k
    have hagree1 : ∀ c2 ∈ cs, ∀ k, ChildReach m c2 k →
        findNode (cleanupChildren fuel c acc) k = findNode m k := by
      intro c2 hc2 k hk
      have hnr : ¬ChildReach m c k := by
        intro hck
        exact subtree_disjoint hCO hH (hedge c (List.mem_cons_self c cs))
          (hedge c2 (List.mem_cons_of_mem c hc2))
          (fun hcc => hcnotin (hcc ▸ hc2)) hck hk
      rw [hB1 k hnr]
      exact hagree c2 (List.mem_cons_of_mem c hc2) k hk
    obtain ⟨hndr, hAr, hBr⟩ := ih2 (cleanupChildren fuel c acc) hnodup2
      (fun c2 hc2 => hedge c2 (List.mem_cons_of_mem c hc2))
      (fun c2 hc2 => hfu c2 (List.mem_cons_of_mem c hc2)) hnd1 hsub1 hagree1
    refine ⟨hndr, ?_, ?_⟩
    · intro k hk
      obtain ⟨c2, hc2, hrk⟩ := hk
      rcases List.mem_cons.mp hc2 with rfl | hc2tail
      · by_cases hk2 : ∃ c3 ∈ cs, ChildReach m c3 k
        · exact hAr k hk2
        · rw [hBr k hk2]; exact hA1 k hrk
      · exact hAr k ⟨c2, hc2tail, hrk⟩
    · intro k hk
      push_neg at hk
      have h1 : ¬∃ c3 ∈ cs, ChildReach m c3 k := by
        push_neg
        intro c3 hc3
        exact hk c3 (List.mem_cons_of_mem c hc3)
      rw [hBr k h1]
      exact hB1 k (hk c (List.mem_cons_self c cs))

theorem cleanup_spec {m : FileMap} (hPO : forestInvF m)
    (hCO : childrenOkF m) {h : String → Nat} (hH : descHeights m h) :
    ∀ fuel id acc, nodupKeys acc →
      (∀ k, findNode acc k = findNode m k ∨ findNode acc k = none) →
      (∀ k, ChildReach m id k → findNode acc k = findNode m k) →
      h id < fuel →
      nodupKeys (cleanupChildren fuel id acc) ∧
      (∀ k, ChildReach m id k → findNode (cleanupChildren fuel id acc) k = none) ∧
      (∀ k, ¬ChildReach m id k →
        findNode (cleanupChildren fuel id acc) k = findNode acc k) := by
  intro fuel
  induction fuel with
  | zero =>
    intro id acc _ _ _ hf
    exact absurd hf (Nat.not_lt_zero _)
  | succ fuel ih =>
    intro id acc hnd hsub hagree hfuel
    have haccm : findNode acc id = findNode m id := hagree id (ChildReach.refl id)
    cases hacc : findNode acc id with
    | none =>
      have hmid : findNode m id = none := by rw [← haccm, hacc]
      have hstep : cleanupChildren (fuel + 1) id acc = eraseNode acc id := by
        rw [cleanupChildren_succ, hacc]
      rw [hstep]
      refine ⟨nodupKeys_erase acc id hnd, ?_, ?_⟩
      · intro k hk
        cases hk with
        | refl => rw [findNode_erase acc hnd]; simp
        | head hf hc hr => rw [hmid] at hf; cases hf
      · intro k hk
        have hkid : k ≠ id := by rintro rfl; exact hk (ChildReach.refl k)
        rw [findNode_erase acc hnd, if_neg hkid]
    | some item =>
      have hmid : findNode m id = some item := by rw [← haccm, hacc]
      have hstep : cleanupChildren (fuel + 1) id acc =
          eraseNode ((item.children.getD []).foldl
            (fun acc2 c => cleanupChildren fuel c acc2) acc) id := by
        rw [cleanupChildren_succ, hacc]
      rw [hstep]
      have hcsnd : (item.children.getD []).Nodup := childList_nodup hPO hCO hmid
      have hedge : ∀ c ∈ item.children.getD [], ChildEdge m id c :=
        fun c hc => ⟨item, hmid, hc⟩
      have hfu : ∀ c ∈ item.children.getD [], h c < fuel := by
        intro c hc
        have h1 := descHeights_find hH hmid c hc
        omega
      have hag : ∀ c ∈ item.children.getD [], ∀ k, ChildReach m c k →
          findNode acc k = findNode m k := by
        intro c hc k hk
        exact hagree k (ChildReach.head hmid hc hk)
      obtain ⟨hndf, hAf, hBf⟩ := cleanup_fold hCO hH fuel ih id
        (item.children.getD []) acc hcsnd hedge hfu hnd hsub hag
      refine ⟨nodupKeys_erase _ _ hndf, ?_, ?_⟩
      · intro k hk
        by_cases hkid : k = id
        · subst hkid
          rw [findNode_erase _ hndf]
          simp
        · rw [findNode_erase _ hndf, if_neg hkid]
          cases hk with
          | refl => exact absurd rfl hkid
          | head hf hc hr =>
            rw [hmid] at hf
            cases hf
            exact hAf k ⟨_, hc, hr⟩
      · intro k hk
        have hkid : k ≠ id := by rintro rfl; exact hk (ChildReach.refl k)
        rw [findNode_erase _ hndf, if_neg hkid]
        refine hBf k ?_
        rintro ⟨c, hc, hr⟩
        exact hk (ChildReach.head hmid hc hr)

/-! ## Claim C2: the delete cascade -/

/-- A dangling root `d` (no parent, not a workspace root) with child `x`,
beside the registered root `r`. -/
def fxDangling : FileMap :=
  [("r", mkFolder "r" none []),
   ("d", mkFolder "d" none ["x"]),
   ("x", mkFile "x" (some "d"))]

/-- C2 counterexample: `d` is present, is not a workspace root, and has the
descendant `x`; yet `deleteNode d` removes only the entry `d` itself — the
source's parent-less branch does not cascade — so `x` stays resolvable with
a `parentId` referencing the deleted id, and the active node `x` survives. -/
theorem claim_C2_counterexample :
    findNode fxDangling "d" = some (mkFolder "d" none ["x"]) ∧
    (∀ b ∈ (mkState fxDangling (some "x")).books, b.rootFolderId ≠ "d") ∧
    IsDescendant fxDangling "d" "x" ∧
    findNode (deleteNode (mkState fxDangling (some "x")) "d").fileMap "x" =
      some (mkFile "x" (some "d")) ∧
    (deleteNode (mkState fxDangling (some "x")) "d").activeFileId = some "x" := by
  exact ⟨by decide, by decide,
    @IsDescendant.base fxDangling "d" "x" (mkFile "x" (some "d")) (by decide) rfl,
    by decide, by decide⟩

/-- C2 as amended: on a well-formed store (unique keys, forest invariant in
both directions, a height certificate whose value at the node is bounded by
the store size), for every stored node with a non-null `parentId` that is
not a workspace root, `deleteNode` removes the node and every descendant
(both unresolvable afterwards), leaves no surviving node with a `parentId`
referencing a deleted id, removes the id from the old parent's children,
and nulls the active reference when it pointed into the deleted subtree.
(A parent-less non-root id — the counterexample — is instead removed alone,
its children left orphaned.) -/
theorem claim_C2_amended (s : AppState) (h : String → Nat)
    (hND : nodupKeys s.fileMap) (hPO : forestInv s.fileMap)
    (hCO : childrenOk s.fileMap) (hH : descHeights s.fileMap h)
    (nodeId p : String) (node : FileNode)
    (hfind : findNode s.fileMap nodeId = some node)
    (hpar : node.parentId = some p)
    (hroot : ∀ b ∈ s.books, b.rootFolderId ≠ nodeId)
    (hbound : h nodeId ≤ s.fileMap.length) :
    (∀ k, (k = nodeId ∨ IsDescendant s.fileMap nodeId k) →
      findNode (deleteNode s nodeId).fileMap k = none) ∧
    (∀ k n2 q, findNode (deleteNode s nodeId).fileMap k = some n2 →
      n2.parentId = some q → ¬(q = nodeId ∨ IsDescendant s.fileMap nodeId q)) ∧
    (∃ pn, findNode (deleteNode s nodeId).fileMap p = some pn ∧
      nodeId ∉ pn.children.getD []) ∧
    ((s.activeFileId = some nodeId ∨
      (∃ a, s.activeFileId = some a ∧ IsDescendant s.fileMap nodeId a)) →
      (deleteNode s nodeId).activeFileId = none) := by
  have hPOF : forestInvF s.fileMap := forestInvF_of_forestInv hPO
  have hCOF : childrenOkF s.fileMap := childrenOkF_of_childrenOk hCO
  have hany : (s.books.any fun b => b.rootFolderId = nodeId) = false := by
    rw [List.any_eq_false]
    intro b hb
    simpa using hroot b hb
  obtain ⟨parent, hparfind, hparfolder, hparcount⟩ :=
    (parentOkAt_iff s.fileMap nodeId node).mp (hPOF nodeId node hfind) p hpar
  obtain ⟨hndC, hdelC, hfrC⟩ := cleanup_spec hPOF hCOF hH (s.fileMap.length + 1)
    nodeId s.fileMap hND (fun k => Or.inl rfl) (fun k _ => rfl) (by omega)
  have hreach : ∀ k, (k = nodeId ∨ IsDescendant s.fileMap nodeId k) →
      ChildReach s.fileMap nodeId k := by
    intro k hk
    rcases hk with rfl | hk
    · exact ChildReach.refl k
    · exact childReach_of_isDescendant hPOF hk
  have hpnr : ¬ChildReach s.fileMap nodeId p := parent_not_reached hPOF hH hfind hpar
  -- the state after deletion, in closed form
  have hdel : deleteNode s nodeId =
      { s with
        fileMap := insertNode
          (cleanupChildren (s.fileMap.length + 1) nodeId s.fileMap) p
          { parent with children := some ((parent.children.getD []).filter (fun c => c ≠ nodeId)) }
        activeFileId :=
          if (findNode (insertNode
              (cleanupChildren (s.fileMap.length + 1) nodeId s.fileMap) p
              { parent with children := some ((parent.children.getD []).filter (fun c => c ≠ nodeId)) })
              (s.activeFileId.getD "")).isSome
          then s.activeFileId else none } := by
    unfold deleteNode
    rw [hany]
    simp only [Bool.false_eq_true, if_false]
    rw [hfind]
    simp only []
    rw [hpar]
    simp only []
    rw [hparfind]
  rw [hdel]
  set C := cleanupChildren (s.fileMap.length + 1) nodeId s.fileMap with hCdef
  set pnew : FileNode :=
    { parent with children := some ((parent.children.getD []).filter (fun c => c ≠ nodeId)) }
    with hpnewdef
  have hfindM2 : ∀ k, findNode (insertNode C p pnew) k =
      if k = p then some pnew else findNode C k := fun k => findNode_insert C p pnew k
  refine ⟨?_, ?_, ?_, ?_⟩
  · -- deleted subtree unresolvable
    intro k hk
    have hcr := hreach k hk
    have hkp : k ≠ p := by
      rintro rfl
      exact hpnr hcr
    rw [hfindM2 k, if_neg hkp]
    exact hdelC k hcr
  · -- no survivor references a deleted id
    intro k n2 q hk hq hbad
    have hcrq : ChildReach s.fileMap nodeId q := hreach q hbad
    rw [hfindM2 k] at hk
    by_cases hkp : k = p
    · rw [if_pos hkp] at hk
      cases hk
      -- n2 is the patched parent; its parentId is parent's
      have hq2 : parent.parentId = some q := hq
      obtain ⟨pn2, hpn2, _, hcount2⟩ :=
        (parentOkAt_iff s.fileMap p parent).mp (hPOF p parent hparfind) q hq2
      have hmem : p ∈ pn2.children.getD [] := by
        rw [← List.count_pos_iff]
        omega
      exact hpnr (childReach_snoc hcrq ⟨pn2, hpn2, hmem⟩)
    · rw [if_neg hkp] at hk
      have hncr : ¬ChildReach s.fileMap nodeId k := by
        intro hcr
        rw [hdelC k hcr] at hk
        cases hk
      rw [hfrC k hncr] at hk
      obtain ⟨pn2, hpn2, _, hcount2⟩ :=
        (parentOkAt_iff s.fileMap k n2).mp (hPOF k n2 hk) q hq
      have hmem : k ∈ pn2.children.getD [] := by
        rw [← List.count_pos_iff]
        omega
      exact hncr (childReach_snoc hcrq ⟨pn2, hpn2, hmem⟩)
  · -- the id has left the parent's children list
    refine ⟨pnew, ?_, ?_⟩
    · rw [hfindM2 p, if_pos rfl]
    · intro hmem
      have : pnew.children.getD [] =
          (parent.children.getD []).filter (fun c => c ≠ nodeId) := rfl
      rw [this] at hmem
      have := List.of_mem_filter hmem
      simp at this
  · -- active reference nulled when it was inside the subtree
    intro hact
    have hnone : findNode (insertNode C p pnew) (s.activeFileId.getD "") = none := by
      rcases hact with hact | ⟨a, ha, hdesc⟩
      · rw [hact]
        have hcr : ChildReach s.fileMap nodeId nodeId := ChildReach.refl _
        have hkp : nodeId ≠ p := by
          rintro rfl
          exact hpnr hcr
        rw [hfindM2, if_neg (by simpa using hkp)]
        exact hdelC _ hcr
      · rw [ha]
        have hcr : ChildReach s.fileMap nodeId a := childReach_of_isDescendant hPOF hdesc
        have hkp : a ≠ p := by
          rintro rfl
          exact hpnr hcr
        rw [hfindM2, if_neg (by simpa using hkp)]
        exact hdelC _ hcr
    simp [hnone]

/-- Witness for the amended C2: deleting folder `a` of the chain
`r → a → b` while `b` is the active node removes `b` and nulls the active
reference. -/
theorem claim_C2_amended_witness :
    findNode (deleteNode (mkState fxChain (some "b")) "a").fileMap "b" = none ∧
    (deleteNode (mkState fxChain (some "b")) "a").activeFileId = none := by
  have hdesc : IsDescendant fxChain "a" "b" :=
    @IsDescendant.base fxChain "a" "b" (mkFolder "b" (some "a") []) (by decide) rfl
  have H := claim_C2_amended (mkState fxChain (some "b"))
    (fun k => if k = "r" then 2 else if k = "a" then 1 else 0)
    (by decide) (by decide) (by decide) (by decide)
    "a" "r" (mkFolder "a" (some "r") ["b"]) (by decide) rfl (by decide) (by decide)
  exact ⟨H.1 "b" (Or.inr hdesc), H.2.2.2 (Or.inr ⟨"b", rfl, hdesc⟩)⟩

/-! ## Invariant preservation of the mutators -/

theorem no_self_parent {m : FileMap} (hPO : forestInvF m)
    {h : String → Nat} (hH : descHeights m h)
    {k : String} {n : FileNode} (hf : findNode m k = some n) :
    n.parentId ≠ some k := by
  intro hp
  obtain ⟨pn, hpn, _, hcount⟩ := (parentOkAt_iff m k n).mp (hPO k n hf) k hp
  rw [hf] at hpn
  cases hpn
  have hmem : k ∈ n.children.getD [] := by
    rw [← List.count_pos_iff]
    omega
  have := descHeights_find hH hf k hmem
  omega

theorem createNode_preserves (s : AppState) (ty : NodeType)
    (parentId newId : String) (now : Nat) (parent : FileNode) (s2 : AppState)
    (hND : nodupKeys s.fileMap) (hPO : forestInvF s.fileMap)
    (hCO : childrenOkF s.fileMap)
    (hpar : findNode s.fileMap parentId = some parent)
    (hfolder : parent.type = NodeType.FOLDER)
    (hfresh : findNode s.fileMap newId = none)
    (hcr : createNode s ty parentId newId now = some s2) :
    nodupKeys s2.fileMap ∧ forestInvF s2.fileMap := by
  have hpne : parentId ≠ newId := by
    intro hq
    rw [hq, hfresh] at hpar
    cases hpar
  have hmap : s2.fileMap = insertNode
      (insertNode s.fileMap parentId
        { parent with children := some ((parent.children.getD []) ++ [newId])
                      isOpen := some true })
      newId
      { id := newId
        parentId := some parentId
        title := if ty = NodeType.FOLDER then "New Folder" else "Untitled"
        type := ty
        category := some FileCategory.IDEA
        content := if ty = NodeType.FILE then some "" else none
        children := if ty = NodeType.FOLDER then some [] else none
        isOpen := some true
        wordCount := some 0
        lastModified := now
        tags := none } := by
    unfold createNode at hcr
    rw [hpar] at hcr
    simp only [Option.some.injEq] at hcr
    rw [← hcr]
  set P2 : FileNode :=
    { parent with children := some ((parent.children.getD []) ++ [newId])
                  isOpen := some true } with hP2
  set N : FileNode :=
    { id := newId
      parentId := some parentId
      title := if ty = NodeType.FOLDER then "New Folder" else "Untitled"
      type := ty
      category := some FileCategory.IDEA
      content := if ty = NodeType.FILE then some "" else none
      children := if ty = NodeType.FOLDER then some [] else none
      isOpen := some true
      wordCount := some 0
      lastModified := now
      tags := none } with hN
  have hnd2 : nodupKeys s2.fileMap := by
    rw [hmap]
    exact nodupKeys_insert _ _ _ (nodupKeys_insert _ _ _ hND)
  have hfindM : ∀ k, findNode s2.fileMap k =
      if k = newId then some N else if k = parentId then some P2 else findNode s.fileMap k := by
    intro k
    rw [hmap, findNode_insert, findNode_insert]
  have hnotold : newId ∉ parent.children.getD [] := by
    intro hmem
    obtain ⟨cn, hcn, _⟩ := (childOkAt_iff _ _ _).mp (hCO parentId parent hpar) newId hmem
    rw [hfresh] at hcn
    cases hcn
  have hnoparentnew : ∀ k nk, findNode s.fileMap k = some nk → nk.parentId ≠ some newId := by
    intro k nk hk hq
    obtain ⟨pn, hpn, _, _⟩ := (parentOkAt_iff _ _ _).mp (hPO k nk hk) newId hq
    rw [hfresh] at hpn
    cases hpn
  refine ⟨hnd2, ?_⟩
  intro k nk hk
  rw [hfindM k] at hk
  rw [parentOkAt_iff]
  intro q hq
  by_cases hknew : k = newId
  · rw [if_pos hknew] at hk
    have hnkN : nk = N := by
      injection hk with h2
      exact h2.symm
    subst hnkN
    have hqp : parentId = q := by
      have h3 : some parentId = some q := hq
      injection h3
    refine ⟨P2, ?_, hfolder, ?_⟩
    · rw [hfindM q, if_neg (hqp ▸ hpne), if_pos hqp.symm]
    · have h4 : ((parent.children.getD []) ++ [newId]).count newId = 1 := by
        rw [List.count_append, List.count_eq_zero_of_not_mem hnotold]
        simp
      have h5 : P2.children.getD [] = (parent.children.getD []) ++ [newId] := rfl
      rw [h5, hknew]
      exact h4
  · rw [if_neg hknew] at hk
    have hnkold : ∃ nk0, findNode s.fileMap k = some nk0 ∧ nk0.parentId = nk.parentId := by
      by_cases hkpar : k = parentId
      · rw [if_pos hkpar] at hk
        have h3 : nk = P2 := by
          injection hk with h2
          exact h2.symm
        subst h3
        rw [hkpar]
        exact ⟨parent, hpar, rfl⟩
      · rw [if_neg hkpar] at hk
        exact ⟨nk, hk, rfl⟩
    obtain ⟨nk0, hnk0, hpeq⟩ := hnkold
    rw [hq] at hpeq
    obtain ⟨pn, hpn, hpnf, hpncnt⟩ := (parentOkAt_iff _ _ _).mp (hPO k nk0 hnk0) q hpeq
    have hqnew : q ≠ newId := by
      intro hq2
      rw [hq2, hfresh] at hpn
      cases hpn
    by_cases hqpar : q = parentId
    · rw [hqpar, hpar] at hpn
      have h3 : parent = pn := by injection hpn
      subst h3
      refine ⟨P2, ?_, hfolder, ?_⟩
      · rw [hfindM q, if_neg hqnew, if_pos hqpar]
      · have h5 : P2.children.getD [] = (parent.children.getD []) ++ [newId] := rfl
        rw [h5, List.count_append]
        have h6 : ([newId].count k) = 0 := by
          rw [List.count_eq_zero_of_not_mem]
          intro h7
          rcases List.mem_singleton.mp h7 with h8
          exact hknew h8
        omega
    · refine ⟨pn, ?_, hpnf, hpncnt⟩
      rw [hfindM q, if_neg hqnew, if_neg hqpar]
      exact hpn

theorem deleteNode_preserves (s : AppState) (h : String → Nat)
    (hND : nodupKeys s.fileMap) (hPO : forestInvF s.fileMap)
    (hCO : childrenOkF s.fileMap) (hH : descHeights s.fileMap h)
    (nodeId p : String) (node : FileNode)
    (hfind : findNode s.fileMap nodeId = some node)
    (hpar : node.parentId = some p)
    (hroot : ∀ b ∈ s.books, b.rootFolderId ≠ nodeId)
    (hbound : h nodeId ≤ s.fileMap.length) :
    nodupKeys (deleteNode s nodeId).fileMap ∧
    forestInvF (deleteNode s nodeId).fileMap := by
  have hany : (s.books.any fun b => b.rootFolderId = nodeId) = false := by
    rw [List.any_eq_false]
    intro b hb
    simpa using hroot b hb
  obtain ⟨parent, hparfind, hparfolder, hparcount⟩ :=
    (parentOkAt_iff s.fileMap nodeId node).mp (hPO nodeId node hfind) p hpar
  obtain ⟨hndC, hdelC, hfrC⟩ := cleanup_spec hPO hCO hH (s.fileMap.length + 1)
    nodeId s.fileMap hND (fun k => Or.inl rfl) (fun k _ => rfl) (by omega)
  have hpnr : ¬ChildReach s.fileMap nodeId p := parent_not_reached hPO hH hfind hpar
  have hdelmap : (deleteNode s nodeId).fileMap = insertNode
      (cleanupChildren (s.fileMap.length + 1) nodeId s.fileMap) p
      { parent with children := some ((parent.children.getD []).filter (fun c => c ≠ nodeId)) } := by
    unfold deleteNode
    rw [hany]
    simp only [Bool.false_eq_true, if_false]
    rw [hfind]
    simp only []
    rw [hpar]
    simp only []
    rw [hparfind]
  rw [hdelmap]
  set C := cleanupChildren (s.fileMap.length + 1) nodeId s.fileMap with hCdef
  set pnew : FileNode :=
    { parent with children := some ((parent.children.getD []).filter (fun c => c ≠ nodeId)) }
    with hpnewdef
  have hfindM2 : ∀ k, findNode (insertNode C p pnew) k =
      if k = p then some pnew else findNode C k := fun k => findNode_insert C p pnew k
  refine ⟨nodupKeys_insert _ _ _ hndC, ?_⟩
  intro k nk hk
  rw [hfindM2 k] at hk
  rw [parentOkAt_iff]
  intro q hq
  -- `q` was the parent already before the deletion, and is outside the
  -- deleted subtree
  have hqfacts : ∃ nk0, findNode s.fileMap k = some nk0 ∧ nk0.parentId = some q ∧
      ¬ChildReach s.fileMap nodeId k := by
    by_cases hkp : k = p
    · rw [if_pos hkp] at hk
      have h3 : pnew = nk := by injection hk
      subst h3
      rw [hkp]
      exact ⟨parent, hparfind, hq, hpnr⟩
    · rw [if_neg hkp] at hk
      have hncr : ¬ChildReach s.fileMap nodeId k := by
        intro hcr
        rw [hdelC k hcr] at hk
        cases hk
      rw [hfrC k hncr] at hk
      exact ⟨nk, hk, by rw [hq], hncr⟩
  obtain ⟨nk0, hnk0, hq0, hkout⟩ := hqfacts
  obtain ⟨pn, hpn, hpnf, hpncnt⟩ := (parentOkAt_iff _ _ _).mp (hPO k nk0 hnk0) q hq0
  have hkmem : k ∈ pn.children.getD [] := by
    rw [← List.count_pos_iff]
    omega
  have hqout : ¬ChildReach s.fileMap nodeId q := by
    intro hcr
    exact hkout (childReach_snoc hcr ⟨pn, hpn, hkmem⟩)
  have hknid : k ≠ nodeId := by
    rintro rfl
    exact hkout (ChildReach.refl k)
  by_cases hqp : q = p
  · -- the parent got its children filtered; the count of a surviving child
    -- is untouched, since the filter only drops the deleted id
    rw [hqp, hparfind] at hpn
    have h3 : parent = pn := by injection hpn
    subst h3
    refine ⟨pnew, ?_, hparfolder, ?_⟩
    · rw [hfindM2 q, if_pos hqp]
    · have h5 : pnew.children.getD [] =
          (parent.children.getD []).filter (fun c => c ≠ nodeId) := rfl
      rw [h5, List.count_filter (by simp [hknid])]
      exact hpncnt
  · refine ⟨pn, ?_, hpnf, hpncnt⟩
    rw [hfindM2 q, if_neg hqp]
    rw [hfrC q hqout]
    exact hpn

theorem move_preserves (s : AppState) (h : String → Nat)
    (hND : nodupKeys s.fileMap) (hPO : forestInvF s.fileMap)
    (hCO : childrenOkF s.fileMap) (hH : descHeights s.fileMap h)
    (src tgt oldP : String) (n tn : FileNode)
    (hsrc : findNode s.fileMap src = some n)
    (holdp : n.parentId = some oldP)
    (hne : oldP ≠ tgt)
    (htgt : findNode s.fileMap tgt = some tn)
    (htfolder : tn.type = NodeType.FOLDER)
    (htne : tgt ≠ src) :
    nodupKeys (handleReorganizeMove s src tgt).fileMap ∧
    forestInvF (handleReorganizeMove s src tgt).fileMap := by
  obtain ⟨oldParent, holdfind, holdfolder, holdcount⟩ :=
    (parentOkAt_iff s.fileMap src n).mp (hPO src n hsrc) oldP holdp
  have hsrcold : src ≠ oldP := by
    intro hq
    exact no_self_parent hPO hH hsrc (hq ▸ holdp)
  set oldP2 : FileNode :=
    { oldParent with children := some ((oldParent.children.getD []).filter (fun c => c ≠ src)) }
    with holdP2
  set tn2 : FileNode :=
    { tn with children := some ((tn.children.getD []) ++ [src]), isOpen := some true }
    with htn2
  set n2 : FileNode := { n with parentId := some tgt } with hn2
  have htgtold : findNode (insertNode s.fileMap oldP oldP2) tgt = some tn := by
    rw [findNode_insert, if_neg (Ne.symm hne)]
    exact htgt
  have hmap : (handleReorganizeMove s src tgt).fileMap =
      insertNode (insertNode (insertNode s.fileMap oldP oldP2) tgt tn2) src n2 := by
    unfold handleReorganizeMove
    rw [hsrc]
    simp only []
    rw [holdp]
    simp only [if_neg hne]
    rw [holdfind]
    simp only []
    rw [htgtold]
  rw [hmap]
  have hnd2 : nodupKeys (insertNode (insertNode (insertNode s.fileMap oldP oldP2) tgt tn2) src n2) :=
    nodupKeys_insert _ _ _ (nodupKeys_insert _ _ _ (nodupKeys_insert _ _ _ hND))
  have hfindM : ∀ k, findNode (insertNode (insertNode (insertNode s.fileMap oldP oldP2) tgt tn2) src n2) k =
      if k = src then some n2 else if k = tgt then some tn2
      else if k = oldP then some oldP2 else findNode s.fileMap k := by
    intro k
    rw [findNode_insert, findNode_insert, findNode_insert]
  have hsrcnotin : src ∉ tn.children.getD [] := by
    intro hmem
    obtain ⟨cn, hcn, hcp⟩ := (childOkAt_iff _ _ _).mp (hCO tgt tn htgt) src hmem
    rw [hsrc] at hcn
    have h3 : n = cn := by injection hcn
    subst h3
    rw [holdp] at hcp
    have h4 : oldP = tgt := by injection hcp
    exact hne h4
  -- a surviving parent pointer of the original store is still honoured in
  -- the updated map
  have hcommon : ∀ k0 q0 nk0, findNode s.fileMap k0 = some nk0 →
      nk0.parentId = some q0 → k0 ≠ src →
      ∃ pn2, findNode (insertNode (insertNode (insertNode s.fileMap oldP oldP2) tgt tn2) src n2) q0 = some pn2 ∧
        pn2.type = NodeType.FOLDER ∧ (pn2.children.getD []).count k0 = 1 := by
    intro k0 q0 nk0 hk0 hq0 hk0src
    obtain ⟨pn, hpn, hpnf, hpncnt⟩ := (parentOkAt_iff _ _ _).mp (hPO k0 nk0 hk0) q0 hq0
    by_cases hq1 : q0 = src
    · rw [hq1, hsrc] at hpn
      have h3 : n = pn := by injection hpn
      subst h3
      refine ⟨n2, ?_, hpnf, hpncnt⟩
      rw [hfindM q0, if_pos hq1]
    · by_cases hq2 : q0 = tgt
      · rw [hq2, htgt] at hpn
        have h3 : tn = pn := by injection hpn
        subst h3
        refine ⟨tn2, ?_, htfolder, ?_⟩
        · rw [hfindM q0, if_neg hq1, if_pos hq2]
        · have h5 : tn2.children.getD [] = (tn.children.getD []) ++ [src] := rfl
          rw [h5, List.count_append]
          have h6 : List.count k0 [src] = 0 := by
            rw [List.count_eq_zero_of_not_mem]
            intro h7
            exact hk0src (List.mem_singleton.mp h7)
          omega
      · by_cases hq3 : q0 = oldP
        · rw [hq3, holdfind] at hpn
          have h3 : oldParent = pn := by injection hpn
          subst h3
          refine ⟨oldP2, ?_, hpnf, ?_⟩
          · rw [hfindM q0, if_neg hq1, if_neg hq2, if_pos hq3]
          · have h5 : oldP2.children.getD [] =
                (oldParent.children.getD []).filter (fun c => c ≠ src) := rfl
            rw [h5, List.count_filter (by simp [hk0src])]
            exact hpncnt
        · refine ⟨pn, ?_, hpnf, hpncnt⟩
          rw [hfindM q0, if_neg hq1, if_neg hq2, if_neg hq3]
          exact hpn
  refine ⟨hnd2, ?_⟩
  intro k nk hk
  rw [hfindM k] at hk
  rw [parentOkAt_iff]
  intro q hq
  by_cases h1 : k = src
  · -- the moved node itself: its new parent is the target folder
    rw [if_pos h1] at hk
    have hnkeq : nk = n2 := by
      injection hk with h2
      exact h2.symm
    subst hnkeq
    have hqtgt : tgt = q := by
      have h3 : some tgt = some q := hq
      injection h3
    refine ⟨tn2, ?_, htfolder, ?_⟩
    · rw [hfindM q, if_neg (fun hh : q = src => htne (hqtgt ▸ hh)), if_pos hqtgt.symm]
    · have h5 : tn2.children.getD [] = (tn.children.getD []) ++ [src] := rfl
      rw [h5, h1, List.count_append, List.count_eq_zero_of_not_mem hsrcnotin]
      simp
  · rw [if_neg h1] at hk
    by_cases h2 : k = tgt
    · rw [if_pos h2] at hk
      have hnkeq : nk = tn2 := by
        injection hk with h3
        exact h3.symm
      subst hnkeq
      exact hcommon k q tn (by rw [h2]; exact htgt) hq h1
    · rw [if_neg h2] at hk
      by_cases h3 : k = oldP
      · rw [if_pos h3] at hk
        have hnkeq : nk = oldP2 := by
          injection hk with h4
          exact h4.symm
        subst hnkeq
        exact hcommon k q oldParent (by rw [h3]; exact holdfind) hq h1
      · rw [if_neg h3] at hk
        exact hcommon k q nk hk hq h1

/-! ## Invariant preservation of bulk reorganize

The proof threads one fact through both loops of `handleReorganize`: the
store *as it will look once the root's children are overwritten with the
current set and the current folder's children are written* satisfies the
forest invariant.  The handler's final inserts produce exactly that patched
map, so the invariant of the result falls out at the end. -/

theorem jsSetAdd_not_mem {l : List String} {x : String} (h : x ∉ l) :
    jsSetAdd l x = l ++ [x] := by
  unfold jsSetAdd
  rw [if_neg h]

theorem jsSetAdd_nodup {l : List String} (h : l.Nodup) (x : String) :
    (jsSetAdd l x).Nodup := by
  unfold jsSetAdd
  by_cases hx : x ∈ l
  · rw [if_pos hx]; exact h
  · rw [if_neg hx]
    simpa [List.nodup_append] using ⟨h, hx⟩

theorem jsSetAdd_mem (l : List String) (x y : String) :
    y ∈ jsSetAdd l x ↔ y ∈ l ∨ y = x := by
  unfold jsSetAdd
  by_cases hx : x ∈ l
  · rw [if_pos hx]
    constructor
    · exact Or.inl
    · rintro (h | rfl)
      · exact h
      · exact hx
  · rw [if_neg hx]
    simp

theorem jsSetDelete_nodup {l : List String} (h : l.Nodup) (x : String) :
    (jsSetDelete l x).Nodup := List.Nodup.filter _ h

theorem jsSetDelete_mem (l : List String) (x y : String) :
    y ∈ jsSetDelete l x ↔ y ∈ l ∧ y ≠ x := by
  unfold jsSetDelete
  simp [List.mem_filter]

theorem jsSetDelete_count (l : List String) (x y : String) (h : y ≠ x) :
    (jsSetDelete l x).count y = l.count y := by
  unfold jsSetDelete
  exact List.count_filter (by simp [h])

theorem jsSetOf_spec (l : List String) :
    ∀ acc : List String, acc.Nodup →
      (jsSetOf l = l.foldl jsSetAdd [] ∧ True) ∧
      ((l.foldl jsSetAdd acc).Nodup ∧
        ∀ y, y ∈ l.foldl jsSetAdd acc ↔ y ∈ acc ∨ y ∈ l) := by
  induction l with
  | nil =>
    intro acc hacc
    exact ⟨⟨rfl, trivial⟩, hacc, by simp⟩
  | cons x l ih =>
    intro acc hacc
    refine ⟨⟨rfl, trivial⟩, ?_⟩
    have h1 := (ih (jsSetAdd acc x) (jsSetAdd_nodup hacc x)).2
    refine ⟨h1.1, ?_⟩
    intro y
    rw [List.foldl_cons, h1.2 y, jsSetAdd_mem]
    constructor
    · rintro ((h | h) | h)
      · exact Or.inl h
      · exact Or.inr (by simp [h])
      · exact Or.inr (by simp [h])
    · rintro (h | h)
      · exact Or.inl (Or.inl h)
      · rcases List.mem_cons.mp h with rfl | h2
        · exact Or.inl (Or.inr rfl)
        · exact Or.inr h2

theorem jsSetOf_nodup (l : List String) : (jsSetOf l).Nodup :=
  ((jsSetOf_spec l [] (by simp)).2).1

theorem jsSetOf_mem (l : List String) (y : String) : y ∈ jsSetOf l ↔ y ∈ l := by
  have h := ((jsSetOf_spec l [] (by simp)).2).2 y
  unfold jsSetOf
  rw [h]
  simp

theorem parentOkAt_congr {m1 m2 : FileMap}
    (h : ∀ k, findNode m1 k = findNode m2 k) (k : String) (n : FileNode) :
    parentOkAt m1 k n = parentOkAt m2 k n := by
  unfold parentOkAt
  cases n.parentId with
  | none => rfl
  | some p =>
    simp only []
    rw [h p]

theorem forestInvF_congr {m1 m2 : FileMap}
    (h : ∀ k, findNode m1 k = findNode m2 k) (hf : forestInvF m1) :
    forestInvF m2 := by
  intro k n hk
  rw [← parentOkAt_congr h]
  exact hf k n (by rw [h k]; exact hk)

theorem bulkMove_inv (rootId g name : String) (now : Nat) (root : FileNode)
    (hg : g ≠ rootId)
    (hr1 : root.parentId ≠ some rootId) (hr2 : root.parentId ≠ some g)
    (mi : FileMap) (Si kids : List String) (f : String) (fn : FileNode)
    (hf : findNode mi f = some fn)
    (hfg : f ≠ g)
    (hfk : f ∉ kids)
    (hInv : forestInvF (insertNode
      (insertNode mi g (bulkFolderNode g rootId name now kids))
      rootId { root with children := some Si })) :
    forestInvF (insertNode
      (insertNode (insertNode mi f { fn with parentId := some g }) g
        (bulkFolderNode g rootId name now (kids ++ [f])))
      rootId { root with children := some (jsSetDelete Si f) }) := by
  have hfindP : ∀ x, findNode (insertNode
      (insertNode mi g (bulkFolderNode g rootId name now kids))
      rootId { root with children := some Si }) x =
      if x = rootId then some { root with children := some Si }
      else if x = g then some (bulkFolderNode g rootId name now kids)
      else findNode mi x := by
    intro x
    rw [findNode_insert, findNode_insert]
  have hfindP2 : ∀ x, findNode (insertNode
      (insertNode (insertNode mi f { fn with parentId := some g }) g
        (bulkFolderNode g rootId name now (kids ++ [f])))
      rootId { root with children := some (jsSetDelete Si f) }) x =
      if x = rootId then some { root with children := some (jsSetDelete Si f) }
      else if x = g then some (bulkFolderNode g rootId name now (kids ++ [f]))
      else if x = f then some { fn with parentId := some g }
      else findNode mi x := by
    intro x
    rw [findNode_insert, findNode_insert, findNode_insert]
  -- mapping an old parent-pointer witness into the updated patch
  have hqmap : ∀ (x0 q0 : String) (pn : FileNode),
      (x0 ≠ f ∨ (q0 ≠ rootId ∧ q0 ≠ g)) →
      findNode (insertNode
        (insertNode mi g (bulkFolderNode g rootId name now kids))
        rootId { root with children := some Si }) q0 = some pn →
      pn.type = NodeType.FOLDER → (pn.children.getD []).count x0 = 1 →
      ∃ pn2, findNode (insertNode
        (insertNode (insertNode mi f { fn with parentId := some g }) g
          (bulkFolderNode g rootId name now (kids ++ [f])))
        rootId { root with children := some (jsSetDelete Si f) }) q0 = some pn2 ∧
        pn2.type = NodeType.FOLDER ∧ (pn2.children.getD []).count x0 = 1 := by
    intro x0 q0 pn hside hfind hty hcnt
    rw [hfindP] at hfind
    by_cases hq1 : q0 = rootId
    · rw [if_pos hq1] at hfind
      have hpn : { root with children := some Si } = pn := by injection hfind
      subst hpn
      have hxf : x0 ≠ f := by
        rcases hside with hside | hside
        · exact hside
        · exact absurd hq1 hside.1
      refine ⟨{ root with children := some (jsSetDelete Si f) }, ?_, hty, ?_⟩
      · rw [hfindP2, if_pos hq1]
      · have h5 : ({ root with children := some (jsSetDelete Si f) } : FileNode).children.getD []
            = jsSetDelete Si f := rfl
        have h6 : ({ root with children := some Si } : FileNode).children.getD [] = Si := rfl
        rw [h5, jsSetDelete_count Si f x0 hxf]
        rw [h6] at hcnt
        exact hcnt
    · rw [if_neg hq1] at hfind
      by_cases hq2 : q0 = g
      · rw [if_pos hq2] at hfind
        have hpn : bulkFolderNode g rootId name now kids = pn := by injection hfind
        subst hpn
        have hxf : x0 ≠ f := by
          rcases hside with hside | hside
          · exact hside
          · exact absurd hq2 hside.2
        refine ⟨bulkFolderNode g rootId name now (kids ++ [f]), ?_, rfl, ?_⟩
        · rw [hfindP2, if_neg hq1, if_pos hq2]
        · have h5 : (bulkFolderNode g rootId name now (kids ++ [f])).children.getD []
              = kids ++ [f] := rfl
          have h6 : (bulkFolderNode g rootId name now kids).children.getD [] = kids := rfl
          rw [h5, List.count_append]
          rw [h6] at hcnt
          have h7 : List.count x0 [f] = 0 := by
            rw [List.count_eq_zero_of_not_mem]
            intro h8
            exact hxf (List.mem_singleton.mp h8)
          omega
      · rw [if_neg hq2] at hfind
        by_cases hq3 : q0 = f
        · rw [hq3, hf] at hfind
          have hpn : fn = pn := by injection hfind
          subst hpn
          refine ⟨{ fn with parentId := some g }, ?_, hty, hcnt⟩
          rw [hfindP2, if_neg hq1, if_neg hq2, if_pos hq3]
        · refine ⟨pn, ?_, hty, hcnt⟩
          rw [hfindP2, if_neg hq1, if_neg hq2, if_neg hq3]
          exact hfind
  intro x nx hx
  rw [hfindP2] at hx
  rw [parentOkAt_iff]
  intro q hq
  by_cases hx1 : x = rootId
  · rw [if_pos hx1] at hx
    have hnx : { root with children := some (jsSetDelete Si f) } = nx := by injection hx
    subst hnx
    have hq0 : root.parentId = some q := hq
    have hqr : q ≠ rootId := fun hh => hr1 (hh ▸ hq0)
    have hqg : q ≠ g := fun hh => hr2 (hh ▸ hq0)
    obtain ⟨pn, hpn, hty, hcnt⟩ := (parentOkAt_iff _ _ _).mp
      (hInv rootId { root with children := some Si } (by rw [hfindP, if_pos rfl]))
      q hq0
    rw [hx1]
    exact hqmap rootId q pn (Or.inr ⟨hqr, hqg⟩) hpn hty hcnt
  · rw [if_neg hx1] at hx
    by_cases hx2 : x = g
    · rw [if_pos hx2] at hx
      have hnx : bulkFolderNode g rootId name now (kids ++ [f]) = nx := by injection hx
      subst hnx
      have hqroot : rootId = q := by
        have h3 : some rootId = some q := hq
        injection h3
      obtain ⟨pn, hpn, hty, hcnt⟩ := (parentOkAt_iff _ _ _).mp
        (hInv g (bulkFolderNode g rootId name now kids) (by rw [hfindP, if_neg hg, if_pos rfl]))
        rootId rfl
      rw [hfindP, if_pos rfl] at hpn
      have hpneq : { root with children := some Si } = pn := by injection hpn
      subst hpneq
      refine ⟨{ root with children := some (jsSetDelete Si f) }, ?_, hty, ?_⟩
      · rw [hfindP2, if_pos hqroot.symm]
      · have h5 : ({ root with children := some (jsSetDelete Si f) } : FileNode).children.getD []
            = jsSetDelete Si f := rfl
        have h6 : ({ root with children := some Si } : FileNode).children.getD [] = Si := rfl
        rw [h5, hx2, jsSetDelete_count Si f g (Ne.symm hfg)]
        rw [h6] at hcnt
        exact hcnt
    · rw [if_neg hx2] at hx
      by_cases hx3 : x = f
      · rw [if_pos hx3] at hx
        have hnx : { fn with parentId := some g } = nx := by injection hx
        subst hnx
        have hqg : g = q := by
          have h3 : some g = some q := hq
          injection h3
        refine ⟨bulkFolderNode g rootId name now (kids ++ [f]), ?_, rfl, ?_⟩
        · rw [hfindP2, if_neg (hqg ▸ hg), if_pos hqg.symm]
        · have h5 : (bulkFolderNode g rootId name now (kids ++ [f])).children.getD []
              = kids ++ [f] := rfl
          rw [h5, hx3, List.count_append, List.count_eq_zero_of_not_mem hfk]
          simp
      · rw [if_neg hx3] at hx
        obtain ⟨pn, hpn, hty, hcnt⟩ := (parentOkAt_iff _ _ _).mp
          (hInv x nx (by rw [hfindP, if_neg hx1, if_neg hx2]; exact hx))
          q hq
        exact hqmap x q pn (Or.inl hx3) hpn hty hcnt

theorem bulkInner_inv (rootId g name : String) (now : Nat) (root : FileNode)
    (hg : g ≠ rootId)
    (hr1 : root.parentId ≠ some rootId) (hr2 : root.parentId ≠ some g) :
    ∀ (fids : List String) (mi : FileMap) (Si kids : List String),
      fids.Nodup → g ∉ fids → nodupKeys mi → Si.Nodup →
      (∀ x ∈ kids, x ∉ fids) →
      forestInvF (insertNode
        (insertNode mi g (bulkFolderNode g rootId name now kids))
        rootId { root with children := some Si }) →
      nodupKeys (fids.foldl (bulkMoveStep g) (mi, Si, kids)).1 ∧
      (fids.foldl (bulkMoveStep g) (mi, Si, kids)).2.1.Nodup ∧
      (∀ k, (findNode (fids.foldl (bulkMoveStep g) (mi, Si, kids)).1 k).isSome =
        (findNode mi k).isSome) ∧
      (∀ x ∈ (fids.foldl (bulkMoveStep g) (mi, Si, kids)).2.1, x ∈ Si) ∧
      (∀ x ∈ (fids.foldl (bulkMoveStep g) (mi, Si, kids)).2.2, x ∈ kids ∨ x ∈ fids) ∧
      forestInvF (insertNode
        (insertNode (fids.foldl (bulkMoveStep g) (mi, Si, kids)).1 g
          (bulkFolderNode g rootId name now (fids.foldl (bulkMoveStep g) (mi, Si, kids)).2.2))
        rootId { root with children := some (fids.foldl (bulkMoveStep g) (mi, Si, kids)).2.1 }) := by
  intro fids
  induction fids with
  | nil =>
    intro mi Si kids _ _ hnd hSnd _ hInv
    exact ⟨hnd, hSnd, fun k => rfl, fun x hx => hx, fun x hx => Or.inl hx, hInv⟩
  | cons f fids ih =>
    intro mi Si kids hfnd hgf hnd hSnd hkd hInv
    have hstep : (f :: fids).foldl (bulkMoveStep g) (mi, Si, kids) =
        fids.foldl (bulkMoveStep g) (bulkMoveStep g (mi, Si, kids) f) := rfl
    rw [hstep]
    have hfnd2 : fids.Nodup := (List.nodup_cons.mp hfnd).2
    have hfninf : f ∉ fids := (List.nodup_cons.mp hfnd).1
    have hgf2 : g ∉ fids := fun hh => hgf (List.mem_cons_of_mem f hh)
    have hgfne : g ≠ f := fun hh => hgf (by rw [hh]; exact List.mem_cons_self f fids)
    cases hff : findNode mi f with
    | none =>
      have hunch : bulkMoveStep g (mi, Si, kids) f = (mi, Si, kids) := by
        unfold bulkMoveStep
        rw [hff]
      rw [hunch]
      have hkd2 : ∀ x ∈ kids, x ∉ fids := fun x hx hh =>
        hkd x hx (List.mem_cons_of_mem f hh)
      obtain ⟨c1, c2, c3, c4, c5, c6⟩ := ih mi Si kids hfnd2 hgf2 hnd hSnd hkd2 hInv
      exact ⟨c1, c2, c3, c4,
        fun x hx => (c5 x hx).imp id (List.mem_cons_of_mem f), c6⟩
    | some fn =>
      have hmove : bulkMoveStep g (mi, Si, kids) f =
          (insertNode mi f { fn with parentId := some g },
           jsSetDelete Si f, kids ++ [f]) := by
        unfold bulkMoveStep
        rw [hff]
      rw [hmove]
      have hfk : f ∉ kids := fun hh => hkd f hh (List.mem_cons_self f fids)
      have hInv2 := bulkMove_inv rootId g name now root hg hr1 hr2 mi Si kids f fn
        hff (Ne.symm hgfne) hfk hInv
      have hnd2 : nodupKeys (insertNode mi f { fn with parentId := some g }) :=
        nodupKeys_insert _ _ _ hnd
      have hSnd2 : (jsSetDelete Si f).Nodup := jsSetDelete_nodup hSnd f
      have hkd2 : ∀ x ∈ kids ++ [f], x ∉ fids := by
        intro x hx
        rcases List.mem_append.mp hx with hx | hx
        · exact fun hh => hkd x hx (List.mem_cons_of_mem f hh)
        · rw [List.mem_singleton.mp hx]
          exact hfninf
      obtain ⟨c1, c2, c3, c4, c5, c6⟩ := ih (insertNode mi f { fn with parentId := some g })
        (jsSetDelete Si f) (kids ++ [f]) hfnd2 hgf2 hnd2 hSnd2 hkd2 hInv2
      refine ⟨c1, c2, ?_, ?_, ?_, c6⟩
      · intro k
        rw [c3 k, findNode_insert]
        by_cases hk : k = f
        · rw [if_pos hk, hk, hff]
          rfl
        · rw [if_neg hk]
      · intro x hx
        exact ((jsSetDelete_mem Si f x).mp (c4 x hx)).1
      · intro x hx
        rcases c5 x hx with hx2 | hx2
        · rcases List.mem_append.mp hx2 with hx3 | hx3
          · exact Or.inl hx3
          · exact Or.inr (by rw [List.mem_singleton.mp hx3]; exact List.mem_cons_self f fids)
        · exact Or.inr (List.mem_cons_of_mem f hx2)

theorem bulkFolder_inv (rootId : String) (now : Nat) (root : FileNode)
    (hrootty : root.type = NodeType.FOLDER)
    (hr1 : root.parentId ≠ some rootId)
    (mm : FileMap) (S : List String) (g : String) (fol : ReorgFolder)
    (hg : g ≠ rootId)
    (hgfresh : findNode mm g = none)
    (hgS : g ∉ S)
    (hgfids : g ∉ fol.fileIds)
    (hr2 : root.parentId ≠ some g)
    (hfidnd : fol.fileIds.Nodup)
    (hnd : nodupKeys mm) (hSnd : S.Nodup)
    (hInv : forestInvF (insertNode mm rootId { root with children := some S })) :
    nodupKeys (bulkFolderStep rootId now (mm, S) (g, fol)).1 ∧
    (bulkFolderStep rootId now (mm, S) (g, fol)).2.Nodup ∧
    (∀ k, ((findNode (bulkFolderStep rootId now (mm, S) (g, fol)).1 k).isSome ↔
      ((findNode mm k).isSome ∨ k = g))) ∧
    (∀ x ∈ (bulkFolderStep rootId now (mm, S) (g, fol)).2, x ∈ S ∨ x = g) ∧
    forestInvF (insertNode (bulkFolderStep rootId now (mm, S) (g, fol)).1 rootId
      { root with children := some (bulkFolderStep rootId now (mm, S) (g, fol)).2 }) := by
  have hset0 : jsSetAdd S g = S ++ [g] := jsSetAdd_not_mem hgS
  have hset0nd : (jsSetAdd S g).Nodup := jsSetAdd_nodup hSnd g
  have hndm0 : nodupKeys (insertNode mm g (bulkFolderNode g rootId fol.name now [])) :=
    nodupKeys_insert _ _ _ hnd
  -- the invariant of the store patched with the fresh empty folder and the
  -- extended root-children set
  have hInv0 : forestInvF (insertNode
      (insertNode (insertNode mm g (bulkFolderNode g rootId fol.name now [])) g
        (bulkFolderNode g rootId fol.name now []))
      rootId { root with children := some (jsSetAdd S g) }) := by
    have hcong : ∀ k, findNode (insertNode
        (insertNode mm g (bulkFolderNode g rootId fol.name now []))
        rootId { root with children := some (jsSetAdd S g) }) k =
        findNode (insertNode
          (insertNode (insertNode mm g (bulkFolderNode g rootId fol.name now [])) g
            (bulkFolderNode g rootId fol.name now []))
          rootId { root with children := some (jsSetAdd S g) }) k := by
      intro k
      simp only [findNode_insert]
      by_cases h1 : k = rootId
      · simp [h1]
      · by_cases h2 : k = g
        · simp [h1, h2]
        · simp [h1, h2]
    refine forestInvF_congr hcong ?_
    -- the singly patched map satisfies the invariant
    intro x nx hx
    rw [findNode_insert, findNode_insert] at hx
    rw [parentOkAt_iff]
    intro q hq
    by_cases hx1 : x = rootId
    · rw [if_pos hx1] at hx
      have hnx : { root with children := some (jsSetAdd S g) } = nx := by injection hx
      subst hnx
      have hq0 : root.parentId = some q := hq
      have hqr : q ≠ rootId := fun hh => hr1 (hh ▸ hq0)
      have hqg : q ≠ g := fun hh => hr2 (hh ▸ hq0)
      obtain ⟨pn, hpn, hty, hcnt⟩ := (parentOkAt_iff _ _ _).mp
        (hInv rootId { root with children := some S } (by rw [findNode_insert, if_pos rfl]))
        q hq0
      rw [findNode_insert, if_neg hqr] at hpn
      refine ⟨pn, ?_, hty, ?_⟩
      · rw [findNode_insert, findNode_insert, if_neg hqr, if_neg hqg]
        exact hpn
      · rw [hx1]
        exact hcnt
    · rw [if_neg hx1] at hx
      by_cases hx2 : x = g
      · rw [if_pos hx2] at hx
        have hnx : bulkFolderNode g rootId fol.name now [] = nx := by injection hx
        subst hnx
        have hqroot : rootId = q := by
          have h3 : some rootId = some q := hq
          injection h3
        refine ⟨{ root with children := some (jsSetAdd S g) }, ?_, hrootty, ?_⟩
        · rw [findNode_insert, if_pos hqroot.symm]
        · have h5 : ({ root with children := some (jsSetAdd S g) } : FileNode).children.getD []
              = jsSetAdd S g := rfl
          rw [h5, hset0, hx2, List.count_append,
            List.count_eq_zero_of_not_mem hgS]
          simp
      · rw [if_neg hx2] at hx
        obtain ⟨pn, hpn, hty, hcnt⟩ := (parentOkAt_iff _ _ _).mp
          (hInv x nx (by rw [findNode_insert, if_neg hx1]; exact hx)) q hq
        rw [findNode_insert] at hpn
        by_cases hq1 : q = rootId
        · rw [if_pos hq1] at hpn
          have hpneq : { root with children := some S } = pn := by injection hpn
          subst hpneq
          refine ⟨{ root with children := some (jsSetAdd S g) }, ?_, hty, ?_⟩
          · rw [findNode_insert, if_pos hq1]
          · have h5 : ({ root with children := some (jsSetAdd S g) } : FileNode).children.getD []
                = jsSetAdd S g := rfl
            have h6 : ({ root with children := some S } : FileNode).children.getD [] = S := rfl
            rw [h5, hset0, List.count_append]
            rw [h6] at hcnt
            have h7 : List.count x [g] = 0 := by
              rw [List.count_eq_zero_of_not_mem]
              intro h8
              exact hx2 (List.mem_singleton.mp h8)
            omega
        · rw [if_neg hq1] at hpn
          have hqg : q ≠ g := by
            intro hh
            rw [hh, hgfresh] at hpn
            cases hpn
          refine ⟨pn, ?_, hty, hcnt⟩
          rw [findNode_insert, findNode_insert, if_neg hq1, if_neg hqg]
          exact hpn
  obtain ⟨c1, c2, c3, c4, c5, c6⟩ := bulkInner_inv rootId g fol.name now root hg hr1 hr2
    fol.fileIds (insertNode mm g (bulkFolderNode g rootId fol.name now []))
    (jsSetAdd S g) [] hfidnd hgfids hndm0 hset0nd (by intro x hx; cases hx) hInv0
  set r := fol.fileIds.foldl (bulkMoveStep g)
    (insertNode mm g (bulkFolderNode g rootId fol.name now []), jsSetAdd S g, ([] : List String))
    with hr
  have hgr22 : g ∉ r.2.2 := by
    intro hh
    rcases c5 g hh with h1 | h1
    · cases h1
    · exact hgfids h1
  have hfolderentry : ({ bulkFolderNode g rootId fol.name now [] with
      children := some r.2.2
      parentId := if g ∈ r.2.2 then some g else some rootId } : FileNode) =
      bulkFolderNode g rootId fol.name now r.2.2 := by
    rw [if_neg hgr22]
    rfl
  have hstep : bulkFolderStep rootId now (mm, S) (g, fol) =
      (insertNode r.1 g (bulkFolderNode g rootId fol.name now r.2.2), r.2.1) := by
    show (insertNode r.1 g { bulkFolderNode g rootId fol.name now [] with
      children := some r.2.2
      parentId := if g ∈ r.2.2 then some g else some rootId }, r.2.1) = _
    rw [hfolderentry]
  rw [hstep]
  refine ⟨nodupKeys_insert _ _ _ c1, c2, ?_, ?_, c6⟩
  · intro k
    rw [findNode_insert]
    by_cases hk : k = g
    · rw [if_pos hk]
      simp [hk]
    · rw [if_neg hk]
      rw [c3 k, findNode_insert, if_neg hk]
      simp [hk]
  · intro x hx
    rcases c4 x hx with h1
    rcases (jsSetAdd_mem S g x).mp h1 with h2 | h2
    · exact Or.inl h2
    · exact Or.inr h2

theorem bulkOuter_inv (rootId : String) (now : Nat) (root : FileNode)
    (hrootty : root.type = NodeType.FOLDER)
    (hr1 : root.parentId ≠ some rootId) :
    ∀ (prs : List (String × ReorgFolder)) (mm : FileMap) (S : List String),
      (prs.map Prod.fst).Nodup →
      (∀ pr ∈ prs, findNode mm pr.1 = none) →
      (∀ pr ∈ prs, pr.1 ∉ S) →
      (∀ pr ∈ prs, ∀ pr2 ∈ prs, pr.1 ∉ pr2.2.fileIds) →
      (∀ pr ∈ prs, pr.1 ≠ rootId) →
      (∀ pr ∈ prs, root.parentId ≠ some pr.1) →
      (∀ pr ∈ prs, pr.2.fileIds.Nodup) →
      nodupKeys mm → S.Nodup →
      forestInvF (insertNode mm rootId { root with children := some S }) →
      nodupKeys (prs.foldl (bulkFolderStep rootId now) (mm, S)).1 ∧
      (prs.foldl (bulkFolderStep rootId now) (mm, S)).2.Nodup ∧
      forestInvF (insertNode (prs.foldl (bulkFolderStep rootId now) (mm, S)).1 rootId
        { root with children := some (prs.foldl (bulkFolderStep rootId now) (mm, S)).2 }) := by
  intro prs
  induction prs with
  | nil =>
    intro mm S _ _ _ _ _ _ _ hnd hSnd hInv
    exact ⟨hnd, hSnd, hInv⟩
  | cons pr prs ih =>
    intro mm S hgnd hfresh hSfresh hfidfresh hroot hrp hfidnd hnd hSnd hInv
    obtain ⟨g, fol⟩ := pr
    have hmem : (g, fol) ∈ (g, fol) :: prs := List.mem_cons_self _ _
    obtain ⟨c1, c2, c3, c4, c5⟩ := bulkFolder_inv rootId now root hrootty hr1 mm S g fol
      (hroot _ hmem) (hfresh _ hmem) (hSfresh _ hmem)
      (hfidfresh _ hmem _ hmem) (hrp _ hmem) (hfidnd _ hmem) hnd hSnd hInv
    have hstep : ((g, fol) :: prs).foldl (bulkFolderStep rootId now) (mm, S) =
        prs.foldl (bulkFolderStep rootId now) (bulkFolderStep rootId now (mm, S) (g, fol)) := rfl
    rw [hstep]
    have hgnd2 : (prs.map Prod.fst).Nodup := (List.nodup_cons.mp hgnd).2
    have hgnotin : g ∉ prs.map Prod.fst := (List.nodup_cons.mp hgnd).1
    have hst2 : bulkFolderStep rootId now (mm, S) (g, fol) =
        ((bulkFolderStep rootId now (mm, S) (g, fol)).1,
         (bulkFolderStep rootId now (mm, S) (g, fol)).2) := rfl
    rw [hst2]
    refine ih _ _ hgnd2 ?_ ?_ ?_ ?_ ?_ ?_ c1 c2 c5
    · intro pr2 hpr2
      have hne : pr2.1 ≠ g := by
        intro hh
        exact hgnotin (hh ▸ List.mem_map.mpr ⟨pr2, hpr2, rfl⟩)
      have h1 := c3 pr2.1
      have h2 : findNode mm pr2.1 = none := hfresh pr2 (List.mem_cons_of_mem _ hpr2)
      cases hfind : findNode (bulkFolderStep rootId now (mm, S) (g, fol)).1 pr2.1 with
      | none => rfl
      | some v =>
        rw [hfind] at h1
        rcases h1.mp rfl with h3 | h3
        · rw [h2] at h3; cases h3
        · exact absurd h3 hne
    · intro pr2 hpr2 hin
      have hne : pr2.1 ≠ g := by
        intro hh
        exact hgnotin (hh ▸ List.mem_map.mpr ⟨pr2, hpr2, rfl⟩)
      rcases c4 pr2.1 hin with h1 | h1
      · exact hSfresh pr2 (List.mem_cons_of_mem _ hpr2) h1
      · exact hne h1
    · intro pr2 hpr2 pr3 hpr3
      exact hfidfresh pr2 (List.mem_cons_of_mem _ hpr2) pr3 (List.mem_cons_of_mem _ hpr3)
    · intro pr2 hpr2
      exact hroot pr2 (List.mem_cons_of_mem _ hpr2)
    · intro pr2 hpr2
      exact hrp pr2 (List.mem_cons_of_mem _ hpr2)
    · intro pr2 hpr2
      exact hfidnd pr2 (List.mem_cons_of_mem _ hpr2)

theorem bulk_preserves (s : AppState) (h : String → Nat)
    (hND : nodupKeys s.fileMap) (hPO : forestInvF s.fileMap)
    (hCO : childrenOkF s.fileMap) (hH : descHeights s.fileMap h)
    (gen : List String) (folders : List ReorgFolder) (now : Nat) (s2 : AppState)
    (abid : String) (activeBook : Book) (root : FileNode)
    (habid : s.activeBookId = some abid)
    (hfound : s.books.find? (fun b => b.id = abid) = some activeBook)
    (hroot : findNode s.fileMap activeBook.rootFolderId = some root)
    (hrootty : root.type = NodeType.FOLDER)
    (hgennd : gen.Nodup)
    (hlen : gen.length = folders.length)
    (hfresh : ∀ g ∈ gen, findNode s.fileMap g = none)
    (hgfids : ∀ g ∈ gen, ∀ fol ∈ folders, g ∉ fol.fileIds)
    (hgroot : ∀ g ∈ gen, g ≠ activeBook.rootFolderId)
    (hfidnd : ∀ fol ∈ folders, fol.fileIds.Nodup)
    (hres : handleReorganize s gen folders now = some s2) :
    nodupKeys s2.fileMap ∧ forestInvF s2.fileMap := by
  set rootId := activeBook.rootFolderId with hrid
  have hmap : s2.fileMap = insertNode
      ((gen.zip folders).foldl (bulkFolderStep rootId now)
        (s.fileMap, jsSetOf (root.children.getD []))).1 rootId
      { root with children := some ((gen.zip folders).foldl (bulkFolderStep rootId now)
        (s.fileMap, jsSetOf (root.children.getD []))).2 } := by
    unfold handleReorganize at hres
    rw [habid] at hres
    simp only [] at hres
    rw [hfound] at hres
    simp only [] at hres
    rw [hroot] at hres
    simp only [Option.some.injEq] at hres
    rw [← hres]
  have hr1 : root.parentId ≠ some rootId :=
    no_self_parent hPO hH hroot
  have hchildsub : ∀ c ∈ root.children.getD [], (findNode s.fileMap c).isSome := by
    intro c hc
    obtain ⟨cn, hcn, _⟩ := (childOkAt_iff _ _ _).mp (hCO rootId root hroot) c hc
    rw [hcn]
    rfl
  have hS0nd : (jsSetOf (root.children.getD [])).Nodup := jsSetOf_nodup _
  have hInit : forestInvF (insertNode s.fileMap rootId
      { root with children := some (jsSetOf (root.children.getD [])) }) := by
    intro x nx hx
    rw [findNode_insert] at hx
    rw [parentOkAt_iff]
    intro q hq
    by_cases hx1 : x = rootId
    · rw [if_pos hx1] at hx
      have hnx : { root with children := some (jsSetOf (root.children.getD [])) } = nx := by
        injection hx
      subst hnx
      have hq0 : root.parentId = some q := hq
      have hqr : q ≠ rootId := fun hh => hr1 (hh ▸ hq0)
      obtain ⟨pn, hpn, hty, hcnt⟩ := (parentOkAt_iff _ _ _).mp (hPO rootId root hroot) q hq0
      refine ⟨pn, ?_, hty, ?_⟩
      · rw [findNode_insert, if_neg hqr]
        exact hpn
      · rw [hx1]
        exact hcnt
    · rw [if_neg hx1] at hx
      obtain ⟨pn, hpn, hty, hcnt⟩ := (parentOkAt_iff _ _ _).mp (hPO x nx hx) q hq
      by_cases hq1 : q = rootId
      · rw [hq1, hroot] at hpn
        have hpneq : root = pn := by injection hpn
        subst hpneq
        refine ⟨{ root with children := some (jsSetOf (root.children.getD [])) }, ?_, hty, ?_⟩
        · rw [findNode_insert, if_pos hq1]
        · have h5 : ({ root with children := some (jsSetOf (root.children.getD [])) } : FileNode).children.getD []
              = jsSetOf (root.children.getD []) := rfl
          rw [h5]
          have hmemx : x ∈ root.children.getD [] := by
            rw [← List.count_pos_iff]
            omega
          exact List.count_eq_one_of_mem hS0nd ((jsSetOf_mem _ x).mpr hmemx)
      · refine ⟨pn, ?_, hty, hcnt⟩
        rw [findNode_insert, if_neg hq1]
        exact hpn
  have hzipmap : (gen.zip folders).map Prod.fst = gen :=
    List.map_fst_zip gen folders (le_of_eq hlen)
  have hmemgen : ∀ pr ∈ gen.zip folders, pr.1 ∈ gen ∧ pr.2 ∈ folders := by
    intro pr hpr
    obtain ⟨g2, fol2⟩ := pr
    exact List.mem_zip hpr
  obtain ⟨c1, c2, c3⟩ := bulkOuter_inv rootId now root hrootty hr1 (gen.zip folders)
    s.fileMap (jsSetOf (root.children.getD []))
    (by rw [hzipmap]; exact hgennd)
    (fun pr hpr => hfresh pr.1 (hmemgen pr hpr).1)
    (by
      intro pr hpr hmem
      have h1 := (jsSetOf_mem _ pr.1).mp hmem
      have h2 := hchildsub pr.1 h1
      rw [hfresh pr.1 (hmemgen pr hpr).1] at h2
      cases h2)
    (fun pr hpr pr2 hpr2 => hgfids pr.1 (hmemgen pr hpr).1 pr2.2 (hmemgen pr2 hpr2).2)
    (fun pr hpr => hgroot pr.1 (hmemgen pr hpr).1)
    (by
      intro pr hpr hrp
      obtain ⟨pn, hpn, _, _⟩ := (parentOkAt_iff _ _ _).mp (hPO rootId root hroot) pr.1 hrp
      rw [hfresh pr.1 (hmemgen pr hpr).1] at hpn
      cases hpn)
    (fun pr hpr => hfidnd pr.2 (hmemgen pr hpr).2)
    hND hS0nd hInit
  rw [hmap]
  exact ⟨nodupKeys_insert _ _ _ c1, c3⟩

/-! ## Claim C1: the forest invariant under the tree mutators -/

/-- The state `createNode` produces when asked to create a FILE under the
FILE node `f` of the two-node fixture. -/
def c1After : AppState :=
  (createNode (mkState fxRootFile (some "f")) NodeType.FILE "f" "new" 0).getD defaultState

/-- C1 counterexample, two violations on well-formed stores.  First,
`createNode` with a parentId resolving to the FILE node `f` succeeds and
attaches the new child to `f` — the FILE gains a `children` array and the
new node's parent is not a FOLDER.  Second, the move handler applied with
the target equal to the moved node itself (`moveNode("a","a")`, reachable
by dropping folder `a` onto one of its own child files): the guards do not
fire, and the final overwrite of the source entry leaves `a.parentId = "a"`
while `a` is absent from its own children and was removed from its old
parent.  Both outcomes break the forest invariant. -/
theorem claim_C1_counterexample :
    (forestInv fxRootFile ∧
     (findNode fxRootFile "f").map FileNode.type = some NodeType.FILE ∧
     createNode (mkState fxRootFile (some "f")) NodeType.FILE "f" "new" 0 = some c1After ∧
     (findNode c1After.fileMap "f").map (fun n => n.children.getD []) = some ["new"] ∧
     ¬forestInv c1After.fileMap) ∧
    (forestInv fxChain ∧
     (findNode (handleReorganizeMove (mkState fxChain none) "a" "a").fileMap "a").map
       FileNode.parentId = some (some "a") ∧
     (findNode (handleReorganizeMove (mkState fxChain none) "a" "a").fileMap "a").map
       (fun n => n.children.getD []) = some ["b"] ∧
     (findNode (handleReorganizeMove (mkState fxChain none) "a" "a").fileMap "r").map
       (fun n => n.children.getD []) = some [] ∧
     ¬forestInv (handleReorganizeMove (mkState fxChain none) "a" "a").fileMap) := by decide

/-- C1 as amended: on a well-formed store (unique keys, forest invariant in
both directions, a height certificate) each tree mutator preserves the
forest invariant under its implicit preconditions — `createNode` when the
parent resolves to a FOLDER and the generated id is fresh (with a FILE
parent it instead attaches the child and breaks the invariant, per the
counterexample); `deleteNode` for nodes that have a parent; the move
handler when the target is an existing FOLDER other than the moved node;
and `bulkReorganize` when the generated folder ids are fresh and each
entry's file list is duplicate-free. -/
theorem claim_C1_amended (s : AppState) (h : String → Nat)
    (hND : nodupKeys s.fileMap) (hPO : forestInv s.fileMap)
    (hCO : childrenOk s.fileMap) (hH : descHeights s.fileMap h) :
    (∀ ty parentId newId now parent s2,
      findNode s.fileMap parentId = some parent → parent.type = NodeType.FOLDER →
      findNode s.fileMap newId = none →
      createNode s ty parentId newId now = some s2 → forestInv s2.fileMap) ∧
    (∀ nodeId p node,
      findNode s.fileMap nodeId = some node → node.parentId = some p →
      (∀ b ∈ s.books, b.rootFolderId ≠ nodeId) →
      h nodeId ≤ s.fileMap.length →
      forestInv (deleteNode s nodeId).fileMap) ∧
    (∀ src tgt oldP n tn,
      findNode s.fileMap src = some n → n.parentId = some oldP → oldP ≠ tgt →
      findNode s.fileMap tgt = some tn → tn.type = NodeType.FOLDER → tgt ≠ src →
      forestInv (handleReorganizeMove s src tgt).fileMap) ∧
    (∀ gen folders now s2 abid activeBook root,
      s.activeBookId = some abid →
      s.books.find? (fun b => b.id = abid) = some activeBook →
      findNode s.fileMap activeBook.rootFolderId = some root →
      root.type = NodeType.FOLDER →
      gen.Nodup → gen.length = folders.length →
      (∀ g ∈ gen, findNode s.fileMap g = none) →
      (∀ g ∈ gen, ∀ fol ∈ folders, g ∉ fol.fileIds) →
      (∀ g ∈ gen, g ≠ activeBook.rootFolderId) →
      (∀ fol ∈ folders, fol.fileIds.Nodup) →
      handleReorganize s gen folders now = some s2 → forestInv s2.fileMap) := by
  have hPOF : forestInvF s.fileMap := forestInvF_of_forestInv hPO
  have hCOF : childrenOkF s.fileMap := childrenOkF_of_childrenOk hCO
  refine ⟨?_, ?_, ?_, ?_⟩
  · intro ty parentId newId now parent s2 h1 h2 h3 h4
    obtain ⟨hnd2, hinv2⟩ := createNode_preserves s ty parentId newId now parent s2
      hND hPOF hCOF h1 h2 h3 h4
    exact forestInv_of_forestInvF hnd2 hinv2
  · intro nodeId p node h1 h2 h3 h4
    obtain ⟨hnd2, hinv2⟩ := deleteNode_preserves s h hND hPOF hCOF hH nodeId p node h1 h2 h3 h4
    exact forestInv_of_forestInvF hnd2 hinv2
  · intro src tgt oldP n tn h1 h2 h3 h4 h5 h6
    obtain ⟨hnd2, hinv2⟩ := move_preserves s h hND hPOF hCOF hH src tgt oldP n tn
      h1 h2 h3 h4 h5 h6
    exact forestInv_of_forestInvF hnd2 hinv2
  · intro gen folders now s2 abid activeBook root h1 h2 h3 h4 h5 h6 h7 h8 h9 h10 h11
    obtain ⟨hnd2, hinv2⟩ := bulk_preserves s h hND hPOF hCOF hH gen folders now s2
      abid activeBook root h1 h2 h3 h4 h5 h6 h7 h8 h9 h10 h11
    exact forestInv_of_forestInvF hnd2 hinv2

/-- The state produced by a well-formed `createNode` in the witness. -/
def c1WCreate : AppState :=
  (createNode (mkState fxRootFile (some "f")) NodeType.FILE "r" "new" 0).getD defaultState

/-- The state produced by a well-formed `bulkReorganize` in the witness. -/
def c1WBulk : AppState :=
  (handleReorganize (mkState fxRootFile (some "f")) ["g1"]
    [{ name := "Drafts", fileIds := ["f"] }] 0).getD defaultState

/-- Witness for the amended C1: all four mutators, each at a concrete
well-formed store satisfying its preconditions, preserve the invariant. -/
theorem claim_C1_amended_witness :
    (createNode (mkState fxRootFile (some "f")) NodeType.FILE "r" "new" 0 = some c1WCreate ∧
      forestInv c1WCreate.fileMap) ∧
    forestInv (deleteNode (mkState fxRootFile (some "f")) "f").fileMap ∧
    forestInv (handleReorganizeMove (mkState fxChain none) "b" "r").fileMap ∧
    (handleReorganize (mkState fxRootFile (some "f")) ["g1"]
        [{ name := "Drafts", fileIds := ["f"] }] 0 = some c1WBulk ∧
      forestInv c1WBulk.fileMap) := by
  have H1 := claim_C1_amended (mkState fxRootFile (some "f"))
    (fun k => if k = "r" then 1 else 0) (by decide) (by decide) (by decide) (by decide)
  have H2 := claim_C1_amended (mkState fxChain none)
    (fun k => if k = "r" then 2 else if k = "a" then 1 else 0)
    (by decide) (by decide) (by decide) (by decide)
  refine ⟨⟨by decide, ?_⟩, ?_, ?_, ⟨by decide, ?_⟩⟩
  · exact H1.1 NodeType.FILE "r" "new" 0 (mkFolder "r" none ["f"]) c1WCreate
      (by decide) rfl (by decide) (by decide)
  · exact H1.2.1 "f" "r" (mkFile "f" (some "r")) (by decide) rfl (by decide) (by decide)
  · exact H2.2.2.1 "b" "r" "a" (mkFolder "b" (some "a") []) (mkFolder "r" none ["a"])
      (by decide) rfl (by decide) (by decide) rfl (by decide)
  · exact H1.2.2.2 ["g1"] [{ name := "Drafts", fileIds := ["f"] }] 0 c1WBulk
      "bk" { id := "bk", title := "The Golden Age", coverImage := none,
             rootFolderId := "r", status := BookStatus.Drafting }
      (mkFolder "r" none ["f"])
      rfl (by decide) (by decide) rfl (by decide) (by decide)
      (by decide) (by decide) (by decide) (by decide) (by decide)

/-! ## Claim C8: applying bulk reorganize twice -/

/-- The state after one bulk reorganize of `f` into a fresh folder `g1`. -/
def c8One : AppState :=
  (handleReorganize (mkState fxRootFile (some "f")) ["g1"]
    [{ name := "Drafts", fileIds := ["f"] }] 0).getD defaultState

/-- The state after re-applying the same reorganize with a fresh `g2`. -/
def c8Two : AppState :=
  (handleReorganize c8One ["g2"]
    [{ name := "Drafts", fileIds := ["f"] }] 0).getD defaultState

/-- C8 counterexample: the already-moved `f` is *not* skipped by the second
application — it is moved again, and afterwards both `g1.children` and
`g2.children` contain `f`, i.e. the file is referenced in two folders'
children lists. -/
theorem claim_C8_counterexample :
    handleReorganize (mkState fxRootFile (some "f")) ["g1"]
      [{ name := "Drafts", fileIds := ["f"] }] 0 = some c8One ∧
    handleReorganize c8One ["g2"]
      [{ name := "Drafts", fileIds := ["f"] }] 0 = some c8Two ∧
    (findNode c8Two.fileMap "f").map FileNode.parentId = some (some "g2") ∧
    (findNode c8Two.fileMap "g1").map (fun n => n.children.getD []) = some ["f"] ∧
    (findNode c8Two.fileMap "g2").map (fun n => n.children.getD []) = some ["f"] := by decide

/-- C8 as amended: re-applying `bulkReorganize` does not abort and does not
skip a fileId that still resolves: the file is moved again, its `parentId`
then references the second folder, whose children contain it exactly once,
while the first folder's children retain a stale reference to it — so the
file appears in two folders' children lists, though the `parentId` link
resolves it to exactly one.  (A fileId that does not resolve at all is
skipped, also without aborting the batch.) -/
theorem claim_C8_amended (s : AppState) (abid : String) (activeBook : Book)
    (root fn : FileNode) (f g1 g2 nm1 nm2 : String) (now1 now2 : Nat)
    (s1 s2 : AppState)
    (habid : s.activeBookId = some abid)
    (hfound : s.books.find? (fun b => b.id = abid) = some activeBook)
    (hroot : findNode s.fileMap activeBook.rootFolderId = some root)
    (hf : findNode s.fileMap f = some fn)
    (hfroot : f ≠ activeBook.rootFolderId)
    (hg1fresh : findNode s.fileMap g1 = none)
    (hg1root : g1 ≠ activeBook.rootFolderId) (hg1f : g1 ≠ f)
    (hg2fresh : findNode s.fileMap g2 = none)
    (hg2root : g2 ≠ activeBook.rootFolderId) (hg2f : g2 ≠ f) (hg21 : g2 ≠ g1)
    (hres1 : handleReorganize s [g1] [{ name := nm1, fileIds := [f] }] now1 = some s1)
    (hres2 : handleReorganize s1 [g2] [{ name := nm2, fileIds := [f] }] now2 = some s2) :
    findNode s2.fileMap f = some { fn with parentId := some g2 } ∧
    findNode s2.fileMap g1 =
      some (bulkFolderNode g1 activeBook.rootFolderId nm1 now1 [f]) ∧
    findNode s2.fileMap g2 =
      some (bulkFolderNode g2 activeBook.rootFolderId nm2 now2 [f]) ∧
    (bulkFolderNode g1 activeBook.rootFolderId nm1 now1 [f]).children.getD [] = [f] ∧
    (bulkFolderNode g2 activeBook.rootFolderId nm2 now2 [f]).children.getD [] = [f] := by
  set R := activeBook.rootFolderId with hR
  -- close the first application into an explicit map
  have hstep1 : [(g1, ({ name := nm1, fileIds := [f] } : ReorgFolder))].foldl
      (bulkFolderStep R now1) (s.fileMap, jsSetOf (root.children.getD [])) =
      (insertNode
        (insertNode
          (insertNode s.fileMap g1 (bulkFolderNode g1 R nm1 now1 []))
          f { fn with parentId := some g1 })
        g1 { bulkFolderNode g1 R nm1 now1 [] with
              children := some [f]
              parentId := if g1 ∈ [f] then some g1 else some R },
       jsSetDelete (jsSetAdd (jsSetOf (root.children.getD [])) g1) f) := by
    rw [List.foldl_cons, List.foldl_nil]
    unfold bulkFolderStep
    simp only []
    have hfind0 : findNode (insertNode s.fileMap g1 (bulkFolderNode g1 R nm1 now1 [])) f
        = some fn := by
      rw [findNode_insert, if_neg (fun hh : f = g1 => hg1f hh.symm)]
      exact hf
    rw [List.foldl_cons, List.foldl_nil]
    unfold bulkMoveStep
    rw [hfind0]
    rfl
  have hmap1 : s1.fileMap =
      insertNode
        (insertNode
          (insertNode
            (insertNode s.fileMap g1 (bulkFolderNode g1 R nm1 now1 []))
            f { fn with parentId := some g1 })
          g1 (bulkFolderNode g1 R nm1 now1 [f]))
        R { root with children := (some
            (jsSetDelete (jsSetAdd (jsSetOf (root.children.getD [])) g1) f)) } := by
    unfold handleReorganize at hres1
    rw [habid] at hres1
    simp only [] at hres1
    rw [hfound] at hres1
    simp only [] at hres1
    rw [hroot] at hres1
    simp only [Option.some.injEq] at hres1
    rw [← hres1]
    simp only []
    rw [List.zip_cons_cons, List.zip_nil_right, hstep1]
    have hg1mem : g1 ∉ [f] := by
      intro hh
      exact hg1f (List.mem_singleton.mp hh)
    have hentry : ({ bulkFolderNode g1 R nm1 now1 [] with
        children := some [f]
        parentId := if g1 ∈ [f] then some g1 else some R } : FileNode) =
        bulkFolderNode g1 R nm1 now1 [f] := by
      rw [if_neg hg1mem]
      rfl
    rw [hentry]
  -- the lookups we need in the intermediate state
  have hbooks1 : s1.books = s.books := by
    unfold handleReorganize at hres1
    rw [habid] at hres1
    simp only [] at hres1
    rw [hfound] at hres1
    simp only [] at hres1
    rw [hroot] at hres1
    simp only [Option.some.injEq] at hres1
    rw [← hres1]
  have habid1 : s1.activeBookId = some abid := by
    unfold handleReorganize at hres1
    rw [habid] at hres1
    simp only [] at hres1
    rw [hfound] at hres1
    simp only [] at hres1
    rw [hroot] at hres1
    simp only [Option.some.injEq] at hres1
    rw [← hres1]
  have hfind1R : findNode s1.fileMap R = some { root with children := (some
      (jsSetDelete (jsSetAdd (jsSetOf (root.children.getD [])) g1) f)) } := by
    rw [hmap1, findNode_insert, if_pos rfl]
  have hfind1f : findNode s1.fileMap f = some { fn with parentId := some g1 } := by
    rw [hmap1, findNode_insert, if_neg hfroot, findNode_insert,
      if_neg (fun hh : f = g1 => hg1f hh.symm), findNode_insert, if_pos rfl]
  have hfind1g1 : findNode s1.fileMap g1 = some (bulkFolderNode g1 R nm1 now1 [f]) := by
    rw [hmap1, findNode_insert, if_neg hg1root, findNode_insert, if_pos rfl]
  have hfind1g2 : findNode s1.fileMap g2 = none := by
    rw [hmap1, findNode_insert, if_neg hg2root, findNode_insert, if_neg hg21,
      findNode_insert, if_neg hg2f, findNode_insert, if_neg hg21]
    exact hg2fresh
  -- close the second application
  have hstep2 : [(g2, ({ name := nm2, fileIds := [f] } : ReorgFolder))].foldl
      (bulkFolderStep R now2) (s1.fileMap,
        jsSetOf (({ root with children := (some
          (jsSetDelete (jsSetAdd (jsSetOf (root.children.getD [])) g1) f)) } : FileNode).children.getD [])) =
      (insertNode
        (insertNode
          (insertNode s1.fileMap g2 (bulkFolderNode g2 R nm2 now2 []))
          f { fn with parentId := some g2 })
        g2 { bulkFolderNode g2 R nm2 now2 [] with
              children := some [f]
              parentId := if g2 ∈ [f] then some g2 else some R },
       jsSetDelete (jsSetAdd (jsSetOf
         (jsSetDelete (jsSetAdd (jsSetOf (root.children.getD [])) g1) f)) g2) f) := by
    rw [List.foldl_cons, List.foldl_nil]
    unfold bulkFolderStep
    simp only []
    have hfind0 : findNode (insertNode s1.fileMap g2 (bulkFolderNode g2 R nm2 now2 [])) f
        = some { fn with parentId := some g1 } := by
      rw [findNode_insert, if_neg (fun hh : f = g2 => hg2f hh.symm)]
      exact hfind1f
    rw [List.foldl_cons, List.foldl_nil]
    unfold bulkMoveStep
    rw [hfind0]
    rfl
  have hmap2 : s2.fileMap =
      insertNode
        (insertNode
          (insertNode
            (insertNode s1.fileMap g2 (bulkFolderNode g2 R nm2 now2 []))
            f { fn with parentId := some g2 })
          g2 (bulkFolderNode g2 R nm2 now2 [f]))
        R { { root with children := (some
              (jsSetDelete (jsSetAdd (jsSetOf (root.children.getD [])) g1) f)) } with
            children := (some (jsSetDelete (jsSetAdd (jsSetOf
              (jsSetDelete (jsSetAdd (jsSetOf (root.children.getD [])) g1) f)) g2) f)) } := by
    unfold handleReorganize at hres2
    rw [habid1] at hres2
    simp only [] at hres2
    rw [hbooks1, hfound] at hres2
    simp only [] at hres2
    rw [hfind1R] at hres2
    simp only [Option.some.injEq] at hres2
    rw [← hres2]
    simp only []
    rw [List.zip_cons_cons, List.zip_nil_right, hstep2]
    have hg2mem : g2 ∉ [f] := by
      intro hh
      exact hg2f (List.mem_singleton.mp hh)
    have hentry : ({ bulkFolderNode g2 R nm2 now2 [] with
        children := some [f]
        parentId := if g2 ∈ [f] then some g2 else some R } : FileNode) =
        bulkFolderNode g2 R nm2 now2 [f] := by
      rw [if_neg hg2mem]
      rfl
    rw [hentry]
  refine ⟨?_, ?_, ?_, rfl, rfl⟩
  · rw [hmap2, findNode_insert, if_neg hfroot, findNode_insert,
      if_neg (fun hh : f = g2 => hg2f hh.symm), findNode_insert, if_pos rfl]
  · rw [hmap2, findNode_insert, if_neg hg1root, findNode_insert,
      if_neg (fun hh : g1 = g2 => hg21 hh.symm), findNode_insert,
      if_neg hg1f, findNode_insert, if_neg (fun hh : g1 = g2 => hg21 hh.symm)]
    exact hfind1g1
  · rw [hmap2, findNode_insert, if_neg hg2root, findNode_insert, if_pos rfl]

/-- Witness for the amended C8 at the concrete two-application run. -/
theorem claim_C8_amended_witness :
    findNode c8Two.fileMap "f" = some { mkFile "f" (some "r") with parentId := some "g2" } ∧
    findNode c8Two.fileMap "g1" = some (bulkFolderNode "g1" "r" "Drafts" 0 ["f"]) ∧
    findNode c8Two.fileMap "g2" = some (bulkFolderNode "g2" "r" "Drafts" 0 ["f"]) ∧
    (bulkFolderNode "g1" "r" "Drafts" 0 ["f"]).children.getD [] = ["f"] ∧
    (bulkFolderNode "g2" "r" "Drafts" 0 ["f"]).children.getD [] = ["f"] :=
  claim_C8_amended (mkState fxRootFile (some "f")) "bk"
    { id := "bk", title := "The Golden Age", coverImage := none,
      rootFolderId := "r", status := BookStatus.Drafting }
    (mkFolder "r" none ["f"]) (mkFile "f" (some "r"))
    "f" "g1" "g2" "Drafts" "Drafts" 0 0 c8One c8Two
    (by decide) (by decide) (by decide) (by decide) (by decide)
    (by decide) (by decide) (by decide) (by decide) (by decide)
    (by decide) (by decide) (by decide) (by decide)
